import Mathlib

/-!
The pownMyHash campaign controller: credential store, result extractor, dictionary ranking.

A shallow embedding of `potfile.go`, `rankDictionaries.go`, `hashcat.go` and the controller
of `main.go`.

Conventions of the embedding
* A Go `string` is a Lean `String`.  Go compares strings bytewise; on UTF-8 text this is the
  lexicographic order of the code points, which is the order of `String.data`.
* `uint64` values are natural numbers, reduced modulo `2 ^ 64` where Go's arithmetic wraps.
* Results of system calls (`os.Stat`, `os.Open`, `exec.Command(...).Output()`, `os.WriteFile`)
  are inputs of the embedded function; the files it writes are part of the returned state.
* A file or an output read through `bufio.Scanner` is read by `scanLines`; `SysCalls` holds
  the lines the scanner yields, and `updateHistoricalDict.existingPasswords` and
  `extractionStep` tie them to the content read.
* A Go map is a `GoMap`, which may be the nil map.  A panic (an assignment to an entry of the
  nil map, a method called through a nil pointer) ends the run: `UpdateStats` and
  `RankDictionaries` return `none`, and the controller sets `Campaign.panicked` and stops.
* The controller runs over a state `Campaign W`, where `W` is the state of the outside world
  (engine, operator, file system) and `Env W` gives the results of the calls into it; the
  steps taken are recorded in `Campaign.events`.
* The recursion of `InvokeHashcatKnowledgeLoop` has no bound in Go: the embedding takes a
  `fuel` and returns `none` when it runs out.
-/

namespace PownMyHash

/-! ## potfile.go -/

/-- Go's `sort.Strings`: sorts in increasing order.  The order on strings is total, so the sorted
permutation is unique and any correct sorting function computes it. -/
def sortStrings (l : List String) : List String :=
  l.insertionSort (fun a b => a.data ≤ b.data)

/-- The loop of `removeDuplicates`: `seen` is the set of keys of the map `seen`, `result` the
slice built so far. -/
def removeDuplicates.loop (seen : List String) (result : List String) :
    List String → List String
  | [] => result
  | item :: rest =>
    if item ∈ seen then removeDuplicates.loop seen result rest
    else removeDuplicates.loop (item :: seen) (result ++ [item]) rest

/-- Function `removeDuplicates(items)`: keeps the first occurrence of every item. -/
def removeDuplicates (items : List String) : List String :=
  removeDuplicates.loop [] [] items

/-- Go's `os.WriteFile`: on success the file holds `data`; a failed call is modelled as a failure
to open the file for writing, which leaves it as it was. -/
def osWriteFile (ok : Bool) (old : Option String) (data : String) : Option String :=
  if ok then some data else old

/-- Go's `dropCR` (package `bufio`), on a token held in reverse: one trailing carriage
return is dropped. -/
def scanLines.dropCR (token : List Char) : List Char :=
  match token with
  | [] => []
  | c :: rest => if c = '\r' then rest else c :: rest

/-- Go's `bufio.MaxScanTokenSize`: the size in bytes of the largest buffer a `bufio.Scanner`
made by `bufio.NewScanner` uses. -/
def MaxScanTokenSize : Nat := 64 * 1024

/-- Number of bytes of a text in UTF-8, the encoding of a Go string. -/
def byteLen (l : List Char) : Nat :=
  (l.map Char.utf8Size).sum

/-- Go's `bufio.Scanner` with the split function `bufio.ScanLines`, run until `Scan` returns
false: `token` is the current line in reverse.  An empty last line is not a token.  A line
of `MaxScanTokenSize` bytes or more does not fit into the buffer: `Scan` then returns false
with the error `ErrTooLong`, and a loop that does not look at the error of the scanner ends
with the lines read so far. -/
def scanLines.go : List Char → List Char → List String
  | [], token => if token = [] then [] else [String.mk (scanLines.dropCR token).reverse]
  | c :: rest, token =>
    if c = '\n' then String.mk (scanLines.dropCR token).reverse :: scanLines.go rest []
    else if byteLen (c :: token) ≥ MaxScanTokenSize then []
    else scanLines.go rest (c :: token)

/-- The lines the loop `for scanner.Scan() { ... scanner.Text() ... }` reads from a file or
an output with this content. -/
def scanLines (content : String) : List String :=
  scanLines.go content.data []

/-- The entries of a dictionary file, one per line; an absent file has none. -/
def dictEntries (file : Option String) : List String :=
  match file with
  | none => []
  | some content => scanLines content

/-- Lines 15 to 22 of `updateHistoricalDict`: the slice `existingPasswords`, from the content
of the historical dictionary (`none` is an absent file).  When `os.Open` fails the slice
stays nil; otherwise it holds the lines the scanner yields. -/
def updateHistoricalDict.existingPasswords (openOk : Bool) (historicalDict : Option String) :
    Option (List String) :=
  match historicalDict with
  | none => none
  | some content => if openOk then some (scanLines content) else none

/-- Lines 15 to 26 of `updateHistoricalDict`: the slice `uniquePasswords`.  `existing` is what
`os.Open` and the scanner loop yield: `none` when the file cannot be opened (the slice stays
empty), otherwise its lines. -/
def updateHistoricalDict.uniquePasswords (existing : Option (List String))
    (newPasswords : List String) : List String :=
  let existingPasswords := existing.getD []
  let allPasswords := existingPasswords ++ newPasswords
  removeDuplicates (sortStrings allPasswords)

/-- Function `updateHistoricalDict(cfg, newPasswords)`: returns the content of the historical dictionary
after the call and whether `os.WriteFile` succeeded (`true` is a nil error). -/
def updateHistoricalDict (existing : Option (List String)) (writeOk : Bool)
    (historicalDict : Option String) (newPasswords : List String) : Option String × Bool :=
  let uniquePasswords := updateHistoricalDict.uniquePasswords existing newPasswords
  (osWriteFile writeOk historicalDict (String.intercalate "\n" uniquePasswords), writeOk)

/-- The struct `Config` (main.go).  Its pointer field `DictRanking` is left out: the ranking
is passed as a value of `DictRanking` of its own. -/
structure Config where
  HashcatBin : String
  HashcatDir : String
  HashcatPotfile : String
  HashcatFound : Nat
  HashcatPotfileSize : Int
  RulesDir : String
  Rules : List String
  DictsDir : String
  HistoricalDict : String
  StatsFile : String
  CustomDict : String
  HashType : String
  HashFile : String
  Phase : String
deriving DecidableEq, Repr

/-- The two files the extractor rewrites; `none` is an absent file. -/
structure Files where
  customDict : Option String
  historicalDict : Option String
deriving DecidableEq, Repr

/-- Names of the files the extractor writes. -/
inductive FileId where
  | customDict
  | historicalDict
deriving DecidableEq, Repr

/-- Results of the system calls one call of `exportFoundPasswords` makes. -/
structure SysCalls where
  /-- outcome of `os.Stat(cfg.HashcatPotfile)`: the size, or `none` on error -/
  stat : Option Int
  /-- whether the purge `os.WriteFile(cfg.CustomDict, "")` succeeds (its error is ignored) -/
  purgeOk : Bool
  /-- value of `runtime.GOOS == "windows"` -/
  windows : Bool
  /-- whether `os.Getwd` succeeds -/
  getwdOk : Bool
  /-- whether `os.Chdir(cfg.HashcatDir)` succeeds -/
  chdirOk : Bool
  /-- outcome of `cmd.Output()`: the rows the scanner yields, or `none` on error -/
  output : Option (List String)
  /-- whether the write of the custom dictionary succeeds -/
  writeCustomOk : Bool
  /-- what opening and scanning the historical dictionary yields -/
  existing : Option (List String)
  /-- whether the write of the historical dictionary succeeds -/
  writeHistoricalOk : Bool
deriving DecidableEq, Repr

/-- State after one call of `exportFoundPasswords`: the configuration, the files, the value
returned, the `os.WriteFile` calls made, in order, and the argument lists of the engine
queries run through `exec.Command(cfg.HashcatBin, ...).Output()`, in order. -/
structure ExportResult where
  cfg : Config
  files : Files
  ret : Nat
  writes : List (FileId × String)
  queries : List (List String)
deriving DecidableEq, Repr

/-- The test of line 76: a row is kept unless it is empty or the literal `[notfound]`. -/
def keepRow (row : String) : Bool :=
  !(row == "" || row == "[notfound]")

/-- Function `exportFoundPasswords(cfg)`: `sys` holds the results of its system calls, `files`
the two dictionaries before the call. -/
def exportFoundPasswords (sys : SysCalls) (cfg : Config) (files : Files) : ExportResult :=
  match sys.stat with
  | none => ⟨cfg, files, 0, [], []⟩
  | some size =>
    if size = cfg.HashcatPotfileSize then
      ⟨cfg, files, cfg.HashcatFound, [], []⟩
    else
      let cfg := { cfg with HashcatPotfileSize := size }
      -- purge custom dict
      let files := { files with customDict := osWriteFile sys.purgeOk files.customDict "" }
      let writes := [(FileId.customDict, "")]
      if sys.windows && !sys.getwdOk then ⟨cfg, files, 0, writes, []⟩
      else if sys.windows && !sys.chdirOk then ⟨cfg, files, 0, writes, []⟩
      else
        let queries := [["--show", "--outfile-format=2", "-m", cfg.HashType, cfg.HashFile]]
        match sys.output with
        | none => ⟨cfg, files, 0, writes, queries⟩
        | some rows =>
          let passwords := rows.filter keepRow
          let uniquePasswords := removeDuplicates (sortStrings passwords)
          let data := String.intercalate "\n" uniquePasswords
          let writes := writes ++ [(FileId.customDict, data)]
          if !sys.writeCustomOk then ⟨cfg, files, 0, writes, queries⟩
          else
            let files := { files with customDict := some data }
            let hist := updateHistoricalDict sys.existing sys.writeHistoricalOk
              files.historicalDict uniquePasswords
            let writes := writes ++ [(FileId.historicalDict,
              String.intercalate "\n"
                (updateHistoricalDict.uniquePasswords sys.existing uniquePasswords))]
            let files := { files with historicalDict := hist.1 }
            if !hist.2 then ⟨cfg, files, 0, writes, queries⟩
            else
              -- `uint64(len(uniquePasswords))`: a slice length is below `2 ^ 63`
              let count := uniquePasswords.length
              ⟨{ cfg with HashcatFound := count }, files, count, writes, queries⟩

/-- The struct `kv`: a reconstructed dictionary path and its score. -/
structure kv where
  Key : String
  Value : Nat
deriving DecidableEq, Repr

/-- A Go `map[string]uint64`: the nil map, or a table of finitely many entries with pairwise
distinct keys.  The order of `entries` is the order in which the keys were first assigned;
Go does not expose it, and a `range` loop visits the entries in an order of its own.  The
nil map has no entry: it can be read and ranged over, and an assignment to it is a run-time
panic. -/
structure GoMap where
  entries : List (String × Nat)
  nodupKeys : (entries.map Prod.fst).Nodup
  /-- whether the value is the nil map -/
  isNil : Bool
  nilEmpty : isNil = true → entries = []

/-- The empty map, `make(map[string]uint64)`; it is not nil. -/
def GoMap.empty : GoMap := ⟨[], List.nodup_nil, false, fun _ => rfl⟩

/-- The nil map, the zero value of the type and what `json.Unmarshal` leaves for `null`. -/
def GoMap.nil : GoMap := ⟨[], List.nodup_nil, true, fun _ => rfl⟩

/-- The lookup `v, exists := m[k]`; on the nil map no key exists. -/
def GoMap.get? (m : GoMap) (k : String) : Option Nat :=
  m.entries.lookup k

/-- The table after the assignment `m[k] = v` on a map that is not nil. -/
def GoMap.set (m : GoMap) (k : String) (v : Nat) : GoMap :=
  if h : k ∈ m.entries.map Prod.fst then
    ⟨m.entries.map (fun e => if e.1 = k then (k, v) else e), by
      have hk : (m.entries.map (fun e => if e.1 = k then (k, v) else e)).map Prod.fst
          = m.entries.map Prod.fst := by
        rw [List.map_map]
        apply List.map_congr_left
        intro e _
        by_cases he : e.1 = k <;> simp [he]
      rw [hk]
      exact m.nodupKeys, false, fun h => absurd h Bool.false_ne_true⟩
  else
    ⟨m.entries ++ [(k, v)], by
      rw [List.map_append, List.map_cons, List.map_nil]
      exact List.Nodup.append m.nodupKeys (List.nodup_singleton k)
        (List.disjoint_singleton.2 h), false, fun h => absurd h Bool.false_ne_true⟩

/-- The assignment `m[k] = v`: the map after it, or `none` for the run-time panic
`assignment to entry in nil map`. -/
def GoMap.assign (m : GoMap) (k : String) (v : Nat) : Option GoMap :=
  if m.isNil then none else some (m.set k v)

/-- The struct `DictRanking`. -/
structure DictRanking where
  StatsFile : String
  DictsDir : String
  Rank : GoMap

/-- The comparator passed to `sort.Slice` in `SortDict`: `ss[i].Value > ss[j].Value`. -/
def SortDict.less (a b : kv) : Bool :=
  decide (a.Value > b.Value)

/-- Documented contract of `sort.Slice`: the slice is permuted so that no element is `less`
than one placed before it, provided `less` is a strict weak ordering.  The sort is not
guaranteed to be stable. -/
structure SortSliceSpec (sortSlice : (kv → kv → Bool) → List kv → List kv) : Prop where
  perm : ∀ less l, (sortSlice less l).Perm l
  sorted : ∀ less l, (∀ a b, less a b = true → less b a = false) →
    (∀ a b c, less a c = true → less a b = true ∨ less b c = true) →
    (sortSlice less l).Pairwise (fun a b => less b a = false)

/-- Inner loop of Go's insertion sort: `x` is appended to the sorted part, held here in
reverse (last element first), and swapped towards the front while it is `less` than its
predecessor. -/
def insertionSort_func.insert (less : kv → kv → Bool) (x : kv) : List kv → List kv
  | [] => [x]
  | y :: ys => if less x y then y :: insertionSort_func.insert less x ys else x :: y :: ys

/-- Go's `insertionSort_func` (package `sort`), the algorithm `sort.Slice` runs on slices of
at most twelve elements. -/
def insertionSort_func (less : kv → kv → Bool) (l : List kv) : List kv :=
  (l.foldl (fun sorted x => insertionSort_func.insert less x sorted) []).reverse

/-- Method `dr.SortDict()`.  `visit` is the order in which the `range` loop visits the entries of
`dr.Rank` (a permutation of them), `sortSlice` the behaviour of `sort.Slice`. -/
def DictRanking.SortDict (sortSlice : (kv → kv → Bool) → List kv → List kv)
    (dr : DictRanking) (visit : List (String × Nat)) : List kv :=
  let ss := visit.map (fun e => kv.mk (dr.DictsDir ++ e.1) e.2)
  sortSlice SortDict.less ss

/-- Content of the stats file, `json.MarshalIndent` of the table: the entries, which the
encoder emits in increasing key order. -/
def marshalRank (m : GoMap) : List (String × Nat) :=
  m.entries.insertionSort (fun a b => a.1.data ≤ b.1.data)

/-- Method `dr.Save()`: returns the content of the stats file after the call and whether the write
succeeded.  Marshalling a `map[string]uint64` cannot fail.  `UpdateStats`, its only caller,
calls it after an assignment to the table, so on a table that is not nil. -/
def DictRanking.Save (dr : DictRanking) (writeOk : Bool)
    (statsFile : Option (List (String × Nat))) : Option (List (String × Nat)) × Bool :=
  (if writeOk then some (marshalRank dr.Rank) else statsFile, writeOk)

/-- Method `dr.UpdateStats(dictPath, foundCount)`.  `base` is `filepath.Base`; the sum is a `uint64`
sum.  Returns the ranking and the content of the stats file, or `none` when the assignment
to the table panics because the table is the nil map. -/
def DictRanking.UpdateStats (base : String → String) (writeOk : Bool) (dr : DictRanking)
    (statsFile : Option (List (String × Nat))) (dictPath : String) (foundCount : Nat) :
    Option (DictRanking × Option (List (String × Nat))) :=
  let dictPath := base dictPath
  match dr.Rank.get? dictPath with
  | none =>
    match dr.Rank.assign dictPath foundCount with
    | none => none
    | some rank =>
      let dr := { dr with Rank := rank }
      some (dr, (dr.Save writeOk statsFile).1)
  | some stats =>
    match dr.Rank.assign dictPath ((stats + foundCount) % 2 ^ 64) with
    | none => none
    | some rank =>
      let dr := { dr with Rank := rank }
      some (dr, (dr.Save writeOk statsFile).1)

/-- The first loop of `RankDictionaries`: every path whose base name is not a key yet is
entered with score 0.  `none` when an assignment panics because the table is the nil
map. -/
def DictRanking.RankDictionaries.discover (base : String → String) :
    GoMap → List String → Option GoMap
  | rank, [] => some rank
  | rank, path :: rest =>
    let path := base path
    match rank.get? path with
    | none =>
      match rank.assign path 0 with
      | none => none
      | some rank => DictRanking.RankDictionaries.discover base rank rest
    | some _ => DictRanking.RankDictionaries.discover base rank rest

/-- Method `dr.RankDictionaries(dictPaths)`: returns the ranking after the call and the ranked paths,
or `none` when the first loop panics.  `visit` is the order in which the `range` loop of
`SortDict` visits the table. -/
def DictRanking.RankDictionaries (base : String → String)
    (sortSlice : (kv → kv → Bool) → List kv → List kv) (dr : DictRanking)
    (dictPaths : List String) (visit : List (String × Nat)) :
    Option (DictRanking × List String) :=
  match DictRanking.RankDictionaries.discover base dr.Rank dictPaths with
  | none => none
  | some rank =>
    let dr := { dr with Rank := rank }
    let ss := dr.SortDict sortSlice visit
    some (dr, ss.map kv.Key)

/-- Go's `filepath.Base` on a system whose separator is the slash: trailing slashes are dropped and
the last element of the path returned; the empty path gives `.`, a path of slashes `/`. -/
def filepathBase (path : String) : String :=
  if path = "" then "."
  else
    let stripped := (path.data.reverse.dropWhile (fun c => c == '/')).reverse
    let last := (stripped.reverse.takeWhile (fun c => c != '/')).reverse
    if last = [] then "/" else String.mk last

/-- Score of a returned path: the value of the table entry the path was built from. -/
def DictRanking.scoreOf (dr : DictRanking) (path : String) : Option Nat :=
  (dr.Rank.entries.find? (fun e => dr.DictsDir ++ e.1 == path)).map Prod.snd

/-- In the list `l`, `a` occurs at a position before an occurrence of `b`. -/
def rankedBefore (a b : String) (l : List String) : Prop :=
  List.Sublist [a, b] l

instance (a b : String) (l : List String) : Decidable (rankedBefore a b l) := by
  unfold rankedBefore
  infer_instance

/-- A member value of the stats object, as `json.Unmarshal` sees it when the target is a
`uint64`. -/
inductive JsonValue where
  /-- a number written as a decimal integer -/
  | integer (n : Int)
  /-- the literal `null` -/
  | null
  /-- any other value: a string, a boolean, an array, an object, a number with a fraction or
  an exponent, the number `-0` -/
  | other
deriving DecidableEq, Repr

/-- Content of the stats file, as `json.Unmarshal` sees it when the target is a
`map[string]uint64`. -/
inductive JsonDocument where
  /-- not valid JSON -/
  | malformed
  /-- the literal `null` -/
  | null
  /-- valid JSON that is neither `null` nor an object -/
  | notObject
  /-- an object, with its members in the order of the text -/
  | object (members : List (String × JsonValue))
deriving DecidableEq, Repr

/-- What `os.Stat` and `os.ReadFile` yield for the stats file. -/
inductive StatsRead where
  /-- the call of `os.Stat` fails -/
  | absent
  /-- the call of `os.ReadFile` fails -/
  | unreadable
  /-- the file is read -/
  | content (doc : JsonDocument)
deriving DecidableEq, Repr

/-- Decoding of one member value into a fresh `uint64`: the number and whether an
`UnmarshalTypeError` is recorded.  A value that cannot be stored leaves the zero value. -/
def jsonDecodeUint64 : JsonValue → Nat × Bool
  | JsonValue.integer n => if 0 ≤ n ∧ n < 2 ^ 64 then (n.toNat, false) else (0, true)
  | JsonValue.null => (0, false)
  | JsonValue.other => (0, true)

/-- Decoding of the members of an object into the map: every key is assigned the decoded
value of its member, in order, and decoding goes on after a recorded error. -/
def jsonDecodeMembers : List (String × JsonValue) → GoMap → GoMap × Bool
  | [], rank => (rank, false)
  | (k, v) :: rest, rank =>
    let decoded := jsonDecodeUint64 v
    let r := jsonDecodeMembers rest (rank.set k decoded.1)
    (r.1, decoded.2 || r.2)

/-- Go's `json.Unmarshal(data, &dr.Rank)`: the map after the call and whether an error is
returned.  Invalid JSON is refused before anything is decoded; `null` sets the map to nil;
an object is decoded into the map, which is allocated first when it is nil; a type error
does not undo what was decoded. -/
def jsonUnmarshal (doc : JsonDocument) (rank : GoMap) : GoMap × Bool :=
  match doc with
  | JsonDocument.malformed => (rank, true)
  | JsonDocument.null => (GoMap.nil, false)
  | JsonDocument.notObject => (rank, true)
  | JsonDocument.object members =>
    jsonDecodeMembers members (if rank.isNil then GoMap.empty else rank)

/-- Function `NewDictRanking(cfg)`; `read` is what reading the stats file yields. -/
def NewDictRanking (cfg : Config) (read : StatsRead) : DictRanking :=
  let dr : DictRanking :=
    { StatsFile := cfg.StatsFile, DictsDir := cfg.DictsDir, Rank := GoMap.empty }
  match read with
  | StatsRead.absent => dr
  | StatsRead.unreadable => dr
  | StatsRead.content doc =>
    -- an error of `json.Unmarshal` is logged, the map is left as decoded
    { dr with Rank := (jsonUnmarshal doc dr.Rank).1 }

/-! ## hashcat.go -/

/-- Outcome of `cmd.Run()`. -/
inductive RunOutcome where
  /-- the process could not be started or waited for: an error that is no `*exec.ExitError` -/
  | startFailure
  /-- the process ran and ended with exit status `code` (`-1` when killed by a signal); the
  error is nil for status 0 and an `*exec.ExitError` otherwise -/
  | exited (code : Int)
deriving DecidableEq, Repr

/-- Observable steps of a campaign, in the order they happen. -/
inductive Event where
  /-- a call of `AskForConfirmation` and its answer -/
  | asked (msg : String) (answer : Bool)
  /-- the body of the phase with this identifier is entered -/
  | phase (id : String)
  /-- the engine is run with this command line -/
  | invoked (args : List String) (outcome : RunOutcome)
  /-- a call of `exportFoundPasswords` and the count it returns -/
  | measured (count : Nat)
  /-- a call of `UpdateStats` -/
  | updated (dictPath : String) (foundCount : Nat)
deriving DecidableEq, Repr

/-- The collaborators of the controller, over a type `W` of states of the outside world:
library functions and the results of system calls. -/
structure Env (W : Type) where
  /-- Go's `filepath.Base` -/
  base : String → String
  /-- Go's `filepath.Join` of two elements -/
  join : String → String → String
  /-- Go's `sort.Slice` -/
  sortSlice : (kv → kv → Bool) → List kv → List kv
  /-- order in which a `range` loop visits the table -/
  visit : GoMap → W → List (String × Nat)
  /-- results of the system calls of `exportFoundPasswords`, and of `runtime.GOOS`,
  `os.Getwd` and `os.Chdir` in `InvokeHashcat` -/
  sys : Files → W → SysCalls
  /-- value of `rand.Text()` -/
  randText : W → String
  /-- effect and outcome of `exec.Command(bin, args...).Run()` -/
  run : String → List String → Files → W → W × RunOutcome
  /-- answer of `AskForConfirmation(msg)` -/
  confirm : String → W → W × Bool
  /-- result of `filepath.Glob(pattern)`, `none` on error -/
  glob : String → W → Option (List String)
  /-- whether `os.Stat(path)` succeeds -/
  statOk : String → W → Bool
  /-- what reading the stats file yields -/
  statsRead : Option (List (String × Nat)) → W → StatsRead
  /-- whether the write of the stats file in `Save` succeeds -/
  statsWriteOk : W → Bool

/-- State of a campaign: the configuration, the dictionaries and the stats file the
controller writes, the ranking `cfg.DictRanking` (nil before phase 3), the outside world,
the steps taken so far, and whether a run-time panic ended the program. -/
structure Campaign (W : Type) where
  cfg : Config
  files : Files
  statsFile : Option (List (String × Nat))
  ranking : Option DictRanking
  world : W
  events : List Event
  panicked : Bool

/-- The command line `args` that `InvokeHashcat` builds; `session` is the value of
`rand.Text()`.  A nil slice is the empty list. -/
def InvokeHashcat.args (cfg : Config) (session : String) (extraArgs : List String) :
    List String :=
  let randomSession := "Session_" ++ session
  let args := ["--session=" ++ randomSession, "-O", "--force", "-w", "4", "-m",
    cfg.HashType, cfg.HashFile]
  if extraArgs.length > 1 then args ++ extraArgs else args

/-- Function `InvokeHashcat(cfg, extraArgs)`: the state after the call and whether an error is
returned. -/
def InvokeHashcat {W : Type} (env : Env W) (extraArgs : List String) (s : Campaign W) :
    Campaign W × Bool :=
  let args := InvokeHashcat.args s.cfg (env.randText s.world) extraArgs
  let sys := env.sys s.files s.world
  -- on Windows, chdir into hashcat folder then rollback
  if sys.windows && !sys.getwdOk then (s, true)
  else if sys.windows && !sys.chdirOk then (s, true)
  else
    let r := env.run s.cfg.HashcatBin args s.files s.world
    let s := { s with world := r.1, events := s.events ++ [Event.invoked args r.2] }
    match r.2 with
    | RunOutcome.exited 0 => (s, false)
    -- if exit status 1 => ignore
    | RunOutcome.exited 1 => (s, false)
    | _ => (s, true)

/-- Function `InvokeHashcatBruteForce(cfg, mask, extraArgs)`. -/
def InvokeHashcatBruteForce {W : Type} (env : Env W) (mask : String)
    (extraArgs : List String) (s : Campaign W) : Campaign W × Bool :=
  let args := ["-a", "3", mask]
  let args := if extraArgs.length > 1 then args ++ extraArgs else args
  InvokeHashcat env args s

/-- Function `InvokeHashcatStackingRules(cfg, extraArgs)`. -/
def InvokeHashcatStackingRules {W : Type} (env : Env W) (extraArgs : List String)
    (s : Campaign W) : Campaign W × Bool :=
  let args := ["-a", "0"]
  if extraArgs.length < 1 then (s, true)
  else InvokeHashcat env (args ++ extraArgs) s

/-- Function `InvokeHashcatDictWithRule(cfg, dictionary, rule)`. -/
def InvokeHashcatDictWithRule {W : Type} (env : Env W) (dictionary : String) (rule : String)
    (s : Campaign W) : Campaign W × Bool :=
  let args := ["-a", "0", dictionary]
  let args := if rule ≠ "" then args ++ ["-r", rule] else args
  InvokeHashcat env args s

/-! ## main.go -/

/-- A call `exportFoundPasswords(cfg)` within a campaign: the state after it and the count
returned. -/
def exportStep {W : Type} (env : Env W) (s : Campaign W) : Campaign W × Nat :=
  let r := exportFoundPasswords (env.sys s.files s.world) s.cfg s.files
  ({ s with cfg := r.cfg, files := r.files, events := s.events ++ [Event.measured r.ret] },
    r.ret)

/-- The assignment `cfg.Phase = phase`. -/
def setPhase {W : Type} (phase : String) (s : Campaign W) : Campaign W :=
  { s with cfg := { s.cfg with Phase := phase } }

/-- The rule loop of `InvokeHashcatKnowledgeLoop`: the engine is run for every rule; a
failure is logged and the loop goes on. -/
def InvokeHashcatKnowledgeLoop.sweep {W : Type} (env : Env W) (dict : String) :
    List String → Campaign W → Campaign W
  | [], s => s
  | rule :: rest, s =>
    InvokeHashcatKnowledgeLoop.sweep env dict rest (InvokeHashcatDictWithRule env dict rule s).1

/-- Function `InvokeHashcatKnowledgeLoop(cfg, dict)`.  The Go function recurses without a
bound; `fuel` bounds the depth of the recursion and `none` is returned when it runs out.
Returned with the state: the sweeps made, each with the count measured before and after
it. -/
def InvokeHashcatKnowledgeLoop {W : Type} (env : Env W) (dict : String) :
    Nat → Campaign W → Option (Campaign W × List (Nat × Nat))
  | 0, _ => none
  | fuel + 1, s =>
    let s := setPhase ("Knowledge phase " ++ env.base dict) s
    let m := exportStep env s
    let initialCount := m.2
    if initialCount = 0 then some (m.1, [])
    else
      let s := InvokeHashcatKnowledgeLoop.sweep env dict m.1.cfg.Rules m.1
      let m := exportStep env s
      let newCount := m.2
      if newCount > initialCount then
        match InvokeHashcatKnowledgeLoop env dict fuel m.1 with
        | none => none
        | some r => some (r.1, (initialCount, newCount) :: r.2)
      else some (m.1, [(initialCount, newCount)])

/-- Go's `strings.Split(s, ",")`, on the characters of `s`; `token` is the current token in
reverse. -/
def stringsSplit.go : List Char → List Char → List String
  | [], token => [String.mk token.reverse]
  | c :: rest, token =>
    if c = ',' then String.mk token.reverse :: stringsSplit.go rest []
    else stringsSplit.go rest (c :: token)

/-- Go's `strings.Split(s, ",")`. -/
def stringsSplit (s : String) : List String :=
  stringsSplit.go s.data []

/-- The `uint64` difference `a - b`, which wraps around below zero. -/
def uint64Sub (a b : Nat) : Nat :=
  (a + 2 ^ 64 - b) % 2 ^ 64

/-- A call `AskForConfirmation(msg)` within a campaign: the state after it and the answer. -/
def askStep {W : Type} (env : Env W) (msg : String) (s : Campaign W) : Campaign W × Bool :=
  let r := env.confirm msg s.world
  ({ s with world := r.1, events := s.events ++ [Event.asked msg r.2] }, r.2)

/-- Marks the entry into the body of phase `id`; the state is otherwise unchanged. -/
def enterPhase {W : Type} (id : String) (s : Campaign W) : Campaign W :=
  { s with events := s.events ++ [Event.phase id] }

/-- A call `cfg.DictRanking.UpdateStats(dict, foundCount)` within a campaign.  The call panics
on a nil pointer and on a ranking whose table is the nil map. -/
def updateStatsStep {W : Type} (env : Env W) (dict : String) (foundCount : Nat)
    (s : Campaign W) : Campaign W :=
  let s := { s with events := s.events ++ [Event.updated dict foundCount] }
  match s.ranking with
  | none => { s with panicked := true }
  | some dr =>
    match dr.UpdateStats env.base (env.statsWriteOk s.world) s.statsFile dict foundCount with
    | none => { s with panicked := true }
    | some r => { s with ranking := some r.1, statsFile := r.2 }

/-- The assignment `cfg.DictRanking = NewDictRanking(cfg)` within a campaign. -/
def newRankingStep {W : Type} (env : Env W) (s : Campaign W) : Campaign W :=
  { s with ranking := some (NewDictRanking s.cfg (env.statsRead s.statsFile s.world)) }

/-- A call `cfg.DictRanking.RankDictionaries(dicts)` within a campaign: the state after it and
the ranked paths.  The call writes no file.  It panics on a nil pointer and when the first
loop assigns to a table that is the nil map. -/
def rankStep {W : Type} (env : Env W) (dicts : List String) (s : Campaign W) :
    Campaign W × List String :=
  match s.ranking with
  | none => ({ s with panicked := true }, [])
  | some dr =>
    match DictRanking.RankDictionaries.discover env.base dr.Rank dicts with
    | none => ({ s with panicked := true }, [])
    | some table =>
      match dr.RankDictionaries env.base env.sortSlice dicts (env.visit table s.world) with
      | none => ({ s with panicked := true }, [])
      | some ranked => ({ s with ranking := some ranked.1 }, ranked.2)

/-- The loop over `cfg.Rules` in phase 3, for the dictionary `dict` at index `i` of `n`: `j`
is the index of the next rule, the numbers carried along are `initialCount` and
`newCount`.  A panic in `UpdateStats` ends the loop. -/
def startHashcatAutomation.dictRules {W : Type} (env : Env W) (i n : Nat) (dict : String)
    (nRules : Nat) : Nat → List String → Campaign W × Nat × Nat → Campaign W × Nat × Nat
  | _, [], st => st
  | j, rule :: rest, (s, initialCount, _) =>
    let s := setPhase ("Dictionnary phase " ++ toString i ++ "/" ++ toString n ++ " "
      ++ env.base dict ++ ", width rule " ++ toString j ++ "/" ++ toString nRules ++ " "
      ++ env.base rule) s
    let s := (InvokeHashcatDictWithRule env dict rule s).1
    -- Update stats
    let m := exportStep env s
    let newCount := m.2
    let s := updateStatsStep env dict (uint64Sub newCount initialCount) m.1
    if s.panicked then (s, initialCount, newCount)
    else startHashcatAutomation.dictRules env i n dict nRules (j + 1) rest (s, newCount, newCount)

/-- The loop over the ranked dictionaries in phase 3: `i` is the index of the next
dictionary, `n` the number of dictionaries found by the glob.  A panic in `UpdateStats` ends
the loop. -/
def startHashcatAutomation.dictSweep {W : Type} (env : Env W) (n : Nat) :
    Nat → List String → Campaign W × Nat × Nat → Campaign W × Nat × Nat
  | _, [], st => st
  | i, dict :: rest, (s, initialCount, newCount) =>
    let a := askStep env ("Start hashcat on dictionary " ++ dict ++ " ?") s
    if !a.2 then startHashcatAutomation.dictSweep env n (i + 1) rest (a.1, initialCount, newCount)
    else
      let s := setPhase ("Dictionnary phase " ++ toString i ++ "/" ++ toString n ++ " "
        ++ env.base dict) a.1
      let m := exportStep env s
      let initialCount := m.2
      let r := InvokeHashcatDictWithRule env dict "" m.1
      if r.2 then startHashcatAutomation.dictSweep env n (i + 1) rest (r.1, initialCount, newCount)
      else
        -- Update stats
        let m := exportStep env r.1
        let newCount := m.2
        let s := updateStatsStep env dict (uint64Sub newCount initialCount) m.1
        if s.panicked then (s, initialCount, newCount)
        else
          -- Apply rules
          let st := startHashcatAutomation.dictRules env i n dict s.cfg.Rules.length 0
            s.cfg.Rules (s, newCount, newCount)
          if st.1.panicked then st
          else startHashcatAutomation.dictSweep env n (i + 1) rest st

/-- The rule loop of phase 6: rule stacking on the historical dictionary. -/
def startHashcatAutomation.stackHistorical {W : Type} (env : Env W) (best64Rule : String) :
    List String → Campaign W → Campaign W
  | [], s => s
  | rule :: rest, s =>
    startHashcatAutomation.stackHistorical env best64Rule rest
      (InvokeHashcatStackingRules env
        [s.cfg.HistoricalDict, "-r", rule, "-r", best64Rule, "--loopback"] s).1

/-- The rule loop of phase 7 for one dictionary. -/
def startHashcatAutomation.stackRules {W : Type} (env : Env W) (best64Rule : String)
    (dict : String) : List String → Campaign W → Campaign W
  | [], s => s
  | rule :: rest, s =>
    let s := setPhase ("Rules stacking with best64 rule on " ++ env.base dict
      ++ " dico with rule " ++ env.base rule) s
    startHashcatAutomation.stackRules env best64Rule dict rest
      (InvokeHashcatStackingRules env [dict, "-r", rule, "-r", best64Rule, "--loopback"] s).1

/-- The dictionary loop of phase 7. -/
def startHashcatAutomation.stackDicts {W : Type} (env : Env W) (best64Rule : String) :
    List String → Campaign W → Campaign W
  | [], s => s
  | dict :: rest, s =>
    startHashcatAutomation.stackDicts env best64Rule rest
      (startHashcatAutomation.stackRules env best64Rule dict s.cfg.Rules s)

/-- How a case of the `switch` of `startHashcatAutomation` ends. -/
inductive Flow (σ : Type) where
  /-- the case ends, or runs into `continue`: the loop goes on with the next identifier -/
  | next (s : σ)
  /-- the case runs into `return`, or a run-time panic ends the program:
  `startHashcatAutomation` ends -/
  | stop (s : σ)

/-- One iteration of the loop of `startHashcatAutomation`: the `switch` on the identifier
`order`.  `none` when a knowledge loop runs out of `fuel`. -/
def startHashcatAutomation.step {W : Type} (env : Env W) (fuel : Nat) (order : String)
    (s : Campaign W) : Option (Flow (Campaign W)) :=
  if order = "LM" then
    let a := askStep env "Audit LM hashes first?" s
    if a.2 then
      let s := enterPhase "LM" a.1
      let s := { s with cfg := { s.cfg with HashType := "3000" } }
      let s := setPhase "Audit LM hashes" s
      let s := (InvokeHashcatBruteForce env "?a?a?a?a?a?a" ["-i"] s).1
      let s := (InvokeHashcatBruteForce env "?a?a?a?a?a?a?a" [] s).1
      some (Flow.next { s with cfg := { s.cfg with HashType := "1000" } })
    else some (Flow.next a.1)
  else if order = "1" then
    let a := askStep env "Start hashcat on Historical dictionary?" s
    if a.2 then
      let s := enterPhase "1" a.1
      match InvokeHashcatKnowledgeLoop env s.cfg.HistoricalDict fuel s with
      | none => none
      | some r => some (Flow.next r.1)
    else some (Flow.next a.1)
  else if order = "2" then
    let a := askStep env "Start hashcat on Custom dictionary?" s
    if a.2 then
      let s := enterPhase "2" a.1
      match InvokeHashcatKnowledgeLoop env s.cfg.CustomDict fuel s with
      | none => none
      | some r => some (Flow.next r.1)
    else some (Flow.next a.1)
  else if order = "3" then
    match env.glob (env.join s.cfg.DictsDir "*.dico") s.world with
    | none => some (Flow.stop s)
    | some dicts =>
      if dicts.length = 0 then some (Flow.stop s)
      else
        let a := askStep env
          ("Start hashcat on " ++ toString dicts.length ++ " dictionaries?") s
        if a.2 then
          let s := enterPhase "3" a.1
          let s := newRankingStep env s
          let ranked := rankStep env dicts s
          if ranked.1.panicked then some (Flow.stop ranked.1)
          else
            let st := startHashcatAutomation.dictSweep env dicts.length 0 ranked.2
              (ranked.1, 0, 0)
            if st.1.panicked then some (Flow.stop st.1)
            else
              match InvokeHashcatKnowledgeLoop env st.1.cfg.CustomDict fuel st.1 with
              | none => none
              | some r => some (Flow.next r.1)
        else some (Flow.next a.1)
  else if order = "4" then
    let a := askStep env "Brute force password with len=8 with automask" s
    if a.2 then
      let s := enterPhase "4" a.1
      let s := setPhase "Brute force password with len=8 with automask" s
      some (Flow.next (InvokeHashcat env
        ["-a", "3", "--increment", "--increment-min", "8", "--increment-max", "10"] s).1)
    else some (Flow.next a.1)
  else if order = "5" then
    let a := askStep env "Brute force password with len=8" s
    if a.2 then
      let s := enterPhase "5" a.1
      let s := setPhase "Brute force password with len=8" s
      some (Flow.next (InvokeHashcatBruteForce env "?a?a?a?a?a?a?a?a" [] s).1)
    else some (Flow.next a.1)
  else if order = "6" then
    let a := askStep env "Rules stacking with best64 rule on Historical Dict" s
    if a.2 then
      let s := enterPhase "6" a.1
      let s := setPhase "Rules stacking with best64 rule on Historical Dict" s
      let best64Rule := env.join s.cfg.RulesDir "best64.rule"
      if !env.statOk best64Rule s.world then some (Flow.next s)
      else some (Flow.next
        (startHashcatAutomation.stackHistorical env best64Rule s.cfg.Rules s))
    else some (Flow.next a.1)
  else if order = "7" then
    let a := askStep env "Rules stacking with best64 rule on all dico" s
    if a.2 then
      let s := enterPhase "7" a.1
      let best64Rule := env.join s.cfg.RulesDir "best64.rule"
      if !env.statOk best64Rule s.world then some (Flow.next s)
      else
        match env.glob (env.join s.cfg.DictsDir "*.dico") s.world with
        | none => some (Flow.stop s)
        | some dicts =>
          if dicts.length = 0 then some (Flow.stop s)
          else some (Flow.next (startHashcatAutomation.stackDicts env best64Rule dicts s))
    else some (Flow.next a.1)
  else some (Flow.next s)

/-- The loop of `startHashcatAutomation` over the identifiers of the ordering. -/
def startHashcatAutomation.loop {W : Type} (env : Env W) (fuel : Nat) :
    List String → Campaign W → Option (Campaign W)
  | [], s => some s
  | order :: rest, s =>
    match startHashcatAutomation.step env fuel order s with
    | none => none
    | some (Flow.stop s) => some s
    | some (Flow.next s) => startHashcatAutomation.loop env fuel rest s

/-- Function `startHashcatAutomation(cfg)`.  `userOrder` is what `fmt.Scanln` read, `fuel`
bounds every knowledge loop. -/
def startHashcatAutomation {W : Type} (env : Env W) (userOrder : String) (fuel : Nat)
    (s : Campaign W) : Option (Campaign W) :=
  let userOrder :=
    if userOrder = "" then
      if s.cfg.HashType = "1000" then "LM,1,2,3,4,5,6,7" else "1,2,3,4,5,6,7"
    else userOrder
  startHashcatAutomation.loop env fuel (stringsSplit userOrder) s

/-- The phases entered, in order, as the steps record them. -/
def phasesEntered : List Event → List String
  | [] => []
  | Event.phase id :: rest => id :: phasesEntered rest
  | _ :: rest => phasesEntered rest

/-- The confirmation questions asked, in order. -/
def questionsAsked : List Event → List String
  | [] => []
  | Event.asked msg _ :: rest => msg :: questionsAsked rest
  | _ :: rest => questionsAsked rest

/-- The command lines the engine was run with, in order. -/
def commandLines : List Event → List (List String)
  | [] => []
  | Event.invoked args _ :: rest => args :: commandLines rest
  | _ :: rest => commandLines rest

/-- The counts returned by the calls of `exportFoundPasswords`, in order. -/
def countsMeasured : List Event → List Nat
  | [] => []
  | Event.measured count :: rest => count :: countsMeasured rest
  | _ :: rest => countsMeasured rest

/-- The calls of `UpdateStats`, in order: the path and the delta passed. -/
def statsUpdates : List Event → List (String × Nat)
  | [] => []
  | Event.updated dictPath foundCount :: rest => (dictPath, foundCount) :: statsUpdates rest
  | _ :: rest => statsUpdates rest

/-- An engine model in which the cumulative credential count is non-decreasing and bounded
by `U`: on the states `Inv` admits, `count` is what `exportFoundPasswords` returns, no step
of the knowledge loop lowers it, and it never exceeds `U`. -/
structure EngineModel {W : Type} (env : Env W) (U : Nat) (Inv : Campaign W → Prop)
    (count : Campaign W → Nat) : Prop where
  bounded : ∀ s, Inv s → count s ≤ U
  phase : ∀ s p, Inv s → Inv (setPhase p s) ∧ count (setPhase p s) = count s
  measure : ∀ s, Inv s → Inv (exportStep env s).1 ∧ (exportStep env s).2 = count s ∧
    count (exportStep env s).1 = count s
  invoke : ∀ s dict rule, Inv s → Inv (InvokeHashcatDictWithRule env dict rule s).1 ∧
    count s ≤ count (InvokeHashcatDictWithRule env dict rule s).1

/-! ## Concrete data used to evaluate the definitions -/

/-- A configuration as `main` builds it: nothing found yet, watermark 0. -/
def startConfig : Config :=
  { HashcatBin := "/opt/hashcat/hashcat", HashcatDir := "/opt/hashcat",
    HashcatPotfile := "/opt/hashcat/hashcat.potfile", HashcatFound := 0,
    HashcatPotfileSize := 0, RulesDir := "/opt/hashcat/rules", Rules := [],
    DictsDir := "/opt/dico", HistoricalDict := "/opt/pownMyHash.dico",
    StatsFile := "/opt/dict-stats.json", CustomDict := "/tmp/hashes.dict",
    HashType := "1000", HashFile := "/tmp/hashes", Phase := "" }

/-- System calls of one extraction on a system other than Windows: the result store has
`size` bytes, the query gives `output`, the historical dictionary reads as `existing`, and
every write succeeds. -/
def sysCalls (size : Int) (output : Option (List String)) (existing : Option (List String)) :
    SysCalls :=
  { stat := some size, purgeOk := true, windows := false, getwdOk := true, chdirOk := true,
    output := output, writeCustomOk := true, existing := existing, writeHistoricalOk := true }

/-- First extraction of a campaign: the store has 10 bytes and the query lists two
credentials. -/
def firstExtraction : ExportResult :=
  exportFoundPasswords (sysCalls 10 (some ["bob", "[notfound]", "carol", "bob"]) none)
    startConfig ⟨none, none⟩

/-- Second extraction: the store grew to 20 bytes and the engine query fails. -/
def failedExtraction : ExportResult :=
  exportFoundPasswords (sysCalls 20 none none) firstExtraction.cfg firstExtraction.files

/-- Third extraction, the store still at 20 bytes. -/
def repeatedExtraction : ExportResult :=
  exportFoundPasswords (sysCalls 20 (some ["bob", "[notfound]", "carol", "bob"]) none)
    failedExtraction.cfg failedExtraction.files

/-- The table of the ranking scenario: `a.dico` with score 10, `b.dico` with score 5, and an
empty ranking directory root. -/
def scenarioRanking : DictRanking :=
  ⟨"dict-stats.json", "", (GoMap.empty.set "a.dico" 10).set "b.dico" 5⟩

/-- A ranking with an empty table, as `NewDictRanking` builds it when there is no stats file,
and an empty ranking directory root. -/
def freshRanking : DictRanking :=
  ⟨"dict-stats.json", "", GoMap.empty⟩

/-- First ranking of `a.dico` and `b.dico` on the empty table; the `range` loop visits
`b.dico` first. -/
def firstRanking : Option (DictRanking × List String) :=
  freshRanking.RankDictionaries filepathBase insertionSort_func ["a.dico", "b.dico"]
    [("b.dico", 0), ("a.dico", 0)]

/-- Second ranking, on the table the first one left; the `range` loop visits `a.dico`
first. -/
def secondRanking : Option (DictRanking × List String) :=
  firstRanking.bind (fun r =>
    r.1.RankDictionaries filepathBase insertionSort_func ["a.dico", "b.dico"]
      [("a.dico", 0), ("b.dico", 0)])

/-- The table of `secondRanking` after `UpdateStats("a.dico", 0)`. -/
def updatedRanking : Option DictRanking :=
  secondRanking.bind (fun r =>
    (r.1.UpdateStats filepathBase true none "a.dico" 0).map Prod.fst)

/-- Ranking after the update; the `range` loop visits `b.dico` first. -/
def thirdRanking : Option (DictRanking × List String) :=
  updatedRanking.bind (fun dr =>
    dr.RankDictionaries filepathBase insertionSort_func ["a.dico", "b.dico"]
      [("b.dico", 0), ("a.dico", 0)])

/-- A small outside world: the result store holds the first `cracked` of the credentials
alice, bob and carol, and `dicts` are the paths the glob of the dictionaries directory
returns. -/
structure DemoWorld where
  cracked : Nat
  dicts : List String
deriving DecidableEq, Repr

/-- Collaborators over `DemoWorld`: every run of the engine ends with `outcome` and recovers
one more credential, up to three; the size of the result store is the number of credentials
in it; every confirmation is answered with yes; there is no stats file and the best64 rule
exists; `filepath.Join` is taken on clean elements. -/
def demoEnv (outcome : RunOutcome) : Env DemoWorld :=
  { base := filepathBase
    join := fun dir file => dir ++ "/" ++ file
    sortSlice := insertionSort_func
    visit := fun table _ => table.entries
    sys := fun _ w =>
      sysCalls (Int.ofNat w.cracked) (some (["alice", "bob", "carol"].take w.cracked)) none
    randText := fun _ => "4242"
    run := fun _ _ _ w => ({ w with cracked := min (w.cracked + 1) 3 }, outcome)
    confirm := fun _ w => (w, true)
    glob := fun _ w => some w.dicts
    statOk := fun _ _ => true
    statsRead := fun _ _ => StatsRead.absent
    statsWriteOk := fun _ => true }

/-- A campaign at its start over `DemoWorld`, with one rule and the given hash type. -/
def demoCampaign (hashType : String) (cracked : Nat) (dicts : List String) :
    Campaign DemoWorld :=
  { cfg := { startConfig with Rules := ["/opt/hashcat/rules/a.rule"], HashType := hashType }
    files := ⟨none, none⟩
    statsFile := none
    ranking := none
    world := ⟨cracked, dicts⟩
    events := []
    panicked := false }

/-- The table after `UpdateStats("a.dico", 0 - 5)` on the empty table: the delta phase 3
computes when an extraction that returned 5 is followed by one that fails and returns 0. -/
def wrappedRanking : Option DictRanking :=
  (freshRanking.UpdateStats filepathBase true none "a.dico" (uint64Sub 0 5)).map Prod.fst

/-- A stats file with one well-formed member and one member that is no integer, as in
`{"a.dico": 10, "b.dico": "x"}`. -/
def brokenStats : StatsRead :=
  StatsRead.content
    (JsonDocument.object [("a.dico", JsonValue.integer 10), ("b.dico", JsonValue.other)])

/-- The states of campaigns over `DemoWorld` that can arise: at most three credentials are
recovered, the watermark is not ahead of the result store, and when it equals the size of
the store `cfg.HashcatFound` is the number of credentials in it. -/
def demoInv (s : Campaign DemoWorld) : Prop :=
  s.world.cracked ≤ 3 ∧ s.cfg.HashcatPotfileSize ≤ Int.ofNat s.world.cracked ∧
    (s.cfg.HashcatPotfileSize = Int.ofNat s.world.cracked →
      s.cfg.HashcatFound = s.world.cracked)

/-- The cumulative credential count of a campaign over `DemoWorld`. -/
def demoCount (s : Campaign DemoWorld) : Nat :=
  s.world.cracked

/-- Collaborators over `DemoWorld` as in `demoEnv` with engine runs that end with exit status
0, except that the query of the result store fails while it holds exactly two
credentials. -/
def flakyEnv : Env DemoWorld :=
  { demoEnv (RunOutcome.exited 0) with
    sys := fun _ w =>
      sysCalls (Int.ofNat w.cracked)
        (if w.cracked = 2 then none else some (["alice", "bob", "carol"].take w.cracked))
        none }

/-- A campaign at its start over `DemoWorld` with two rules. -/
def twoRuleCampaign (hashType : String) (cracked : Nat) : Campaign DemoWorld :=
  { cfg := { startConfig with
      Rules := ["/opt/hashcat/rules/a.rule", "/opt/hashcat/rules/b.rule"]
      HashType := hashType }
    files := ⟨none, none⟩
    statsFile := none
    ranking := none
    world := ⟨cracked, []⟩
    events := []
    panicked := false }

/-- Collaborators over `DemoWorld` on Windows when the working directory of the engine
cannot be entered: as `demoEnv` with engine runs that end with exit status 0, but
`runtime.GOOS` is `windows` and `os.Chdir(cfg.HashcatDir)` fails. -/
def lockedEnv : Env DemoWorld :=
  { demoEnv (RunOutcome.exited 0) with
    sys := fun _ w =>
      { sysCalls (Int.ofNat w.cracked) (some (["alice", "bob", "carol"].take w.cracked))
          none with
        windows := true
        chdirOk := false } }

/-- A campaign over `DemoWorld` with two rules, after an extraction that found the two
credentials of the result store: the watermark is 2 and `cfg.HashcatFound` is 2. -/
def measuredCampaign : Campaign DemoWorld :=
  { twoRuleCampaign "0" 2 with
    cfg := { (twoRuleCampaign "0" 2).cfg with HashcatFound := 2, HashcatPotfileSize := 2 } }

/-- The ranking `NewDictRanking` builds from the start configuration when there is no stats
file: an empty table and the ranking directory root `/opt/dico`, the value `main` gives
`cfg.DictsDir` through `filepath.Join("/opt", "dico")`. -/
def startRanking : DictRanking :=
  NewDictRanking startConfig StatsRead.absent

/-- Ranking of the glob result `/opt/dico/a.dico` on `startRanking`. -/
def startRanked : Option (DictRanking × List String) :=
  startRanking.RankDictionaries filepathBase insertionSort_func ["/opt/dico/a.dico"]
    [("a.dico", 0)]

/-- The ranking `NewDictRanking` builds when the stats file holds the JSON text `null`:
its table is the nil map. -/
def nullRanking : DictRanking :=
  NewDictRanking startConfig (StatsRead.content JsonDocument.null)

/-- Collaborators over `DemoWorld` as in `demoEnv` with engine runs that end with exit status
0, except that the stats file holds the JSON text `null`. -/
def nullStatsEnv : Env DemoWorld :=
  { demoEnv (RunOutcome.exited 0) with
    statsRead := fun _ _ => StatsRead.content JsonDocument.null }

/-! ### Facts about `removeDuplicates` and `sortStrings` -/

theorem removeDuplicates.loop_append (seen result items : List String) :
    removeDuplicates.loop seen result items = result ++ removeDuplicates.loop seen [] items := by
  induction items generalizing seen result with
  | nil => simp [removeDuplicates.loop]
  | cons x xs ih =>
    by_cases hx : x ∈ seen
    · simp only [removeDuplicates.loop, hx, if_true]
      exact ih seen result
    · simp only [removeDuplicates.loop, hx, if_false]
      rw [ih (x :: seen) (result ++ [x]), ih (x :: seen) ([] ++ [x])]
      simp

theorem removeDuplicates.loop_cons (seen : List String) (x : String) (xs : List String) :
    removeDuplicates.loop seen [] (x :: xs) =
      if x ∈ seen then removeDuplicates.loop seen [] xs
      else x :: removeDuplicates.loop (x :: seen) [] xs := by
  by_cases hx : x ∈ seen
  · simp [removeDuplicates.loop, hx]
  · simp only [removeDuplicates.loop, hx, if_false]
    rw [removeDuplicates.loop_append]
    simp

theorem removeDuplicates.loop_sublist (seen items : List String) :
    (removeDuplicates.loop seen [] items).Sublist items := by
  induction items generalizing seen with
  | nil => simp [removeDuplicates.loop]
  | cons x xs ih =>
    rw [removeDuplicates.loop_cons]
    split
    · exact (ih seen).cons x
    · exact (ih (x :: seen)).cons₂ x

theorem removeDuplicates.mem_loop (seen items : List String) (s : String) :
    s ∈ removeDuplicates.loop seen [] items ↔ s ∈ items ∧ s ∉ seen := by
  induction items generalizing seen with
  | nil => simp [removeDuplicates.loop]
  | cons x xs ih =>
    rw [removeDuplicates.loop_cons]
    split
    · rename_i hx
      rw [ih seen]
      constructor
      · rintro ⟨h1, h2⟩
        exact ⟨List.mem_cons_of_mem _ h1, h2⟩
      · rintro ⟨h1, h2⟩
        rcases List.mem_cons.1 h1 with h | h
        · exact absurd (h ▸ hx) h2
        · exact ⟨h, h2⟩
    · rename_i hx
      rw [List.mem_cons, ih (x :: seen)]
      constructor
      · rintro (h | ⟨h1, h2⟩)
        · exact ⟨h ▸ List.mem_cons_self _ _, h ▸ hx⟩
        · exact ⟨List.mem_cons_of_mem _ h1, fun h => h2 (List.mem_cons_of_mem _ h)⟩
      · rintro ⟨h1, h2⟩
        by_cases hs : s = x
        · exact Or.inl hs
        · refine Or.inr ⟨(List.mem_cons.1 h1).resolve_left hs, fun h => ?_⟩
          rcases List.mem_cons.1 h with h | h
          · exact hs h
          · exact h2 h

theorem removeDuplicates.loop_nodup (seen items : List String) :
    (removeDuplicates.loop seen [] items).Nodup := by
  induction items generalizing seen with
  | nil => simp [removeDuplicates.loop]
  | cons x xs ih =>
    rw [removeDuplicates.loop_cons]
    split
    · exact ih seen
    · refine List.nodup_cons.2 ⟨fun h => ?_, ih (x :: seen)⟩
      exact ((removeDuplicates.mem_loop (x :: seen) xs x).1 h).2 (List.mem_cons_self _ _)

theorem removeDuplicates_sublist (items : List String) :
    (removeDuplicates items).Sublist items :=
  removeDuplicates.loop_sublist [] items

theorem mem_removeDuplicates (items : List String) (s : String) :
    s ∈ removeDuplicates items ↔ s ∈ items := by
  simp [removeDuplicates, removeDuplicates.mem_loop]

theorem removeDuplicates_nodup (items : List String) : (removeDuplicates items).Nodup :=
  removeDuplicates.loop_nodup [] items

theorem sortStrings_perm (l : List String) : (sortStrings l).Perm l :=
  List.perm_insertionSort _ l

theorem sortStrings_sorted (l : List String) : (sortStrings l).Sorted (· ≤ ·) := by
  have h : (fun a b : String => a.data ≤ b.data) = (fun a b : String => a ≤ b) := by
    funext a b
    exact propext String.le_iff_toList_le.symm
  unfold sortStrings
  have := List.sorted_insertionSort (fun a b : String => a ≤ b) l
  convert this using 2

theorem mem_sortStrings (l : List String) (s : String) : s ∈ sortStrings l ↔ s ∈ l :=
  (sortStrings_perm l).mem_iff

/-- The list `removeDuplicates (sortStrings l)` is strictly increasing. -/
theorem removeDuplicates_sortStrings_sorted (l : List String) :
    (removeDuplicates (sortStrings l)).Sorted (· < ·) :=
  List.Sorted.lt_of_le ((sortStrings_sorted l).sublist (removeDuplicates_sublist _))
    (removeDuplicates_nodup _)

theorem mem_removeDuplicates_sortStrings (l : List String) (s : String) :
    s ∈ removeDuplicates (sortStrings l) ↔ s ∈ l := by
  rw [mem_removeDuplicates, mem_sortStrings]

/-- Strict order of strings, checked on their characters. -/
theorem sorted_lt_of_data {l : List String}
    (h : l.Pairwise (fun a b => a.data < b.data)) : l.Sorted (· < ·) :=
  List.Pairwise.imp (fun {a b} (hab : a.data < b.data) => String.lt_iff_toList_lt.2 hab) h

/-- A strictly increasing list is determined by its members. -/
theorem eq_of_sorted_of_mem_iff {l₁ l₂ : List String} (h₁ : l₁.Sorted (· < ·))
    (h₂ : l₂.Sorted (· < ·)) (h : ∀ s, s ∈ l₁ ↔ s ∈ l₂) : l₁ = l₂ :=
  List.eq_of_perm_of_sorted ((List.perm_ext_iff_of_nodup h₁.nodup h₂.nodup).2 h) h₁ h₂

theorem keepRow_iff (row : String) : keepRow row = true ↔ row ≠ "" ∧ row ≠ "[notfound]" := by
  simp [keepRow]

/-- The successful path of `exportFoundPasswords`, in full. -/
theorem exportFoundPasswords_success (sys : SysCalls) (cfg : Config) (files : Files)
    (size : Int) (rows : List String) (hstat : sys.stat = some size)
    (hsize : size ≠ cfg.HashcatPotfileSize)
    (hwin : sys.windows = true → sys.getwdOk = true ∧ sys.chdirOk = true)
    (hout : sys.output = some rows) (hwc : sys.writeCustomOk = true)
    (hwh : sys.writeHistoricalOk = true) :
    exportFoundPasswords sys cfg files =
      { cfg := { cfg with
          HashcatPotfileSize := size
          HashcatFound := (removeDuplicates (sortStrings (rows.filter keepRow))).length }
        files :=
          { customDict := some (String.intercalate "\n"
              (removeDuplicates (sortStrings (rows.filter keepRow))))
            historicalDict := some (String.intercalate "\n"
              (updateHistoricalDict.uniquePasswords sys.existing
                (removeDuplicates (sortStrings (rows.filter keepRow))))) }
        ret := (removeDuplicates (sortStrings (rows.filter keepRow))).length
        writes :=
          [(FileId.customDict, ""),
           (FileId.customDict, String.intercalate "\n"
              (removeDuplicates (sortStrings (rows.filter keepRow)))),
           (FileId.historicalDict, String.intercalate "\n"
              (updateHistoricalDict.uniquePasswords sys.existing
                (removeDuplicates (sortStrings (rows.filter keepRow)))))]
        queries := [["--show", "--outfile-format=2", "-m", cfg.HashType, cfg.HashFile]] } := by
  have h1 : (sys.windows && !sys.getwdOk) = false := by
    cases hw : sys.windows
    · rfl
    · simp [(hwin hw).1]
  have h2 : (sys.windows && !sys.chdirOk) = false := by
    cases hw : sys.windows
    · rfl
    · simp [(hwin hw).2]
  simp [exportFoundPasswords, hstat, hsize, h1, h2, hout, hwc, hwh, updateHistoricalDict,
    osWriteFile]

/-- The skip branch: when the result store has the size of the watermark, nothing is written
and `cfg.HashcatFound` is returned. -/
theorem exportFoundPasswords_skip (sys : SysCalls) (cfg : Config) (files : Files)
    (hstat : sys.stat = some cfg.HashcatPotfileSize) :
    exportFoundPasswords sys cfg files = ⟨cfg, files, cfg.HashcatFound, [], []⟩ := by
  simp [exportFoundPasswords, hstat]

/-- After a call that could read the size of the result store, the watermark is that size. -/
theorem exportFoundPasswords_watermark (sys : SysCalls) (cfg : Config) (files : Files)
    (size : Int) (hstat : sys.stat = some size) :
    (exportFoundPasswords sys cfg files).cfg.HashcatPotfileSize = size := by
  unfold exportFoundPasswords
  simp only [hstat]
  by_cases hsize : size = cfg.HashcatPotfileSize
  · simp [hsize]
  · simp only [hsize, if_false]
    split
    · rfl
    · split
      · rfl
      · split
        · rfl
        · split
          · rfl
          · split <;> rfl

/-- Two consecutive calls at the same size of the result store: the second one takes the
skip branch, writes nothing, and returns the `cfg.HashcatFound` the first one left. -/
theorem exportFoundPasswords_repeat (sys₁ sys₂ : SysCalls) (cfg : Config) (files : Files)
    (size : Int) (h₁ : sys₁.stat = some size) (h₂ : sys₂.stat = some size) :
    exportFoundPasswords sys₂ (exportFoundPasswords sys₁ cfg files).cfg
        (exportFoundPasswords sys₁ cfg files).files =
      ⟨(exportFoundPasswords sys₁ cfg files).cfg, (exportFoundPasswords sys₁ cfg files).files,
        (exportFoundPasswords sys₁ cfg files).cfg.HashcatFound, [], []⟩ := by
  apply exportFoundPasswords_skip
  rw [h₂, exportFoundPasswords_watermark sys₁ cfg files size h₁]

theorem byteLen_append (l₁ l₂ : List Char) :
    byteLen (l₁ ++ l₂) = byteLen l₁ + byteLen l₂ := by
  simp [byteLen]

/-- The number of entries of `removeDuplicates (sortStrings l)` is the number of distinct
members of `l`. -/
theorem length_removeDuplicates_sortStrings (l : List String) :
    (removeDuplicates (sortStrings l)).length = l.toFinset.card := by
  rw [← List.toFinset_card_of_nodup (removeDuplicates_nodup _)]
  congr 1
  ext s
  simp [mem_removeDuplicates_sortStrings]

/-! ### Facts about `GoMap` -/

theorem lookup_eq_some_iff_mem {l : List (String × Nat)} (hl : (l.map Prod.fst).Nodup)
    (k : String) (v : Nat) : l.lookup k = some v ↔ (k, v) ∈ l := by
  induction l with
  | nil => simp
  | cons e es ih =>
    obtain ⟨k', v'⟩ := e
    rw [List.map_cons, List.nodup_cons] at hl
    rw [List.lookup_cons]
    by_cases hk : k = k'
    · subst hk
      have hnot : (k, v) ∉ es := fun h => hl.1 (List.mem_map.2 ⟨(k, v), h, rfl⟩)
      simp [hnot, eq_comm]
    · have hb : (k == k') = false := by simpa using hk
      simp [hb, ih hl.2, hk]

theorem lookup_eq_none_iff_not_mem (l : List (String × Nat)) (k : String) :
    l.lookup k = none ↔ k ∉ l.map Prod.fst := by
  induction l with
  | nil => simp
  | cons e es ih =>
    obtain ⟨k', v'⟩ := e
    rw [List.lookup_cons]
    by_cases hk : k = k'
    · subst hk
      simp
    · have hb : (k == k') = false := by simpa using hk
      simp only [hb, ih, List.map_cons, List.mem_cons, hk, false_or]

theorem GoMap.get?_eq_some_iff (m : GoMap) (k : String) (v : Nat) :
    m.get? k = some v ↔ (k, v) ∈ m.entries :=
  lookup_eq_some_iff_mem m.nodupKeys k v

theorem GoMap.get?_eq_none_iff (m : GoMap) (k : String) :
    m.get? k = none ↔ k ∉ m.entries.map Prod.fst :=
  lookup_eq_none_iff_not_mem m.entries k

theorem lookup_map_replace (l : List (String × Nat)) (k k' : String) (v : Nat) :
    (l.map (fun e => if e.1 = k then (k, v) else e)).lookup k' =
      if k' = k then (l.lookup k).map (fun _ => v) else l.lookup k' := by
  induction l with
  | nil => simp
  | cons e es ih =>
    obtain ⟨a, b⟩ := e
    by_cases hak : a = k
    · subst hak
      by_cases hk : k' = a
      · subst hk
        simp [List.lookup_cons]
      · have hb : (k' == a) = false := by simpa using hk
        simp [List.lookup_cons, hb, hk, ih]
    · by_cases hk : k' = k
      · subst hk
        have hb : (k' == a) = false := by simpa using fun h => hak h.symm
        simp only [List.map_cons, hak, if_false, List.lookup_cons, hb, ih, if_true]
      · by_cases hka : k' = a
        · subst hka
          simp [List.lookup_cons, hak, hk]
        · have hb : (k' == a) = false := by simpa using hka
          simp only [List.map_cons, hak, if_false, List.lookup_cons, hb, ih, hk]

theorem lookup_append_singleton (l : List (String × Nat)) (k k' : String) (v : Nat) :
    (l ++ [(k, v)]).lookup k' =
      match l.lookup k' with
      | some w => some w
      | none => if k' = k then some v else none := by
  induction l with
  | nil =>
    by_cases hk : k' = k
    · subst hk
      simp [List.lookup_cons]
    · have hb : (k' == k) = false := by simpa using hk
      simp [List.lookup_cons, hb, hk]
  | cons e es ih =>
    obtain ⟨a, b⟩ := e
    by_cases hka : k' = a
    · subst hka
      simp [List.lookup_cons]
    · have hb : (k' == a) = false := by simpa using hka
      simp only [List.cons_append, List.lookup_cons, hb, ih]

/-- Reading back the key just assigned. -/
theorem GoMap.get?_set_self (m : GoMap) (k : String) (v : Nat) :
    (m.set k v).get? k = some v := by
  unfold GoMap.set GoMap.get?
  by_cases h : k ∈ m.entries.map Prod.fst
  · rw [dif_pos h]
    show (m.entries.map (fun e => if e.1 = k then (k, v) else e)).lookup k = some v
    rw [lookup_map_replace, if_pos rfl]
    cases hl : m.entries.lookup k with
    | none => exact absurd h ((lookup_eq_none_iff_not_mem _ _).1 hl)
    | some w => rfl
  · rw [dif_neg h]
    show (m.entries ++ [(k, v)]).lookup k = some v
    rw [lookup_append_singleton, (lookup_eq_none_iff_not_mem _ _).2 h]
    simp

/-- An assignment leaves the other keys as they were. -/
theorem GoMap.get?_set_ne (m : GoMap) (k k' : String) (v : Nat) (hne : k' ≠ k) :
    (m.set k v).get? k' = m.get? k' := by
  unfold GoMap.set GoMap.get?
  by_cases h : k ∈ m.entries.map Prod.fst
  · rw [dif_pos h]
    show (m.entries.map (fun e => if e.1 = k then (k, v) else e)).lookup k' = _
    rw [lookup_map_replace, if_neg hne]
  · rw [dif_neg h]
    show (m.entries ++ [(k, v)]).lookup k' = _
    rw [lookup_append_singleton]
    cases hl : m.entries.lookup k' with
    | none => simp [hne]
    | some w => rfl

theorem GoMap.get?_set (m : GoMap) (k k' : String) (v : Nat) :
    (m.set k v).get? k' = if k' = k then some v else m.get? k' := by
  by_cases h : k' = k
  · subst h
    simp [GoMap.get?_set_self]
  · simp [h, GoMap.get?_set_ne m k k' v h]

/-! ### Facts about the nil map and the first loop of `RankDictionaries` -/

theorem GoMap.get?_of_isNil (m : GoMap) (h : m.isNil = true) (k : String) :
    m.get? k = none := by
  unfold GoMap.get?
  rw [m.nilEmpty h]
  rfl

theorem GoMap.isNil_of_get? (m : GoMap) (k : String) (v : Nat) (h : m.get? k = some v) :
    m.isNil = false := by
  cases hn : m.isNil with
  | false => rfl
  | true =>
    rw [GoMap.get?_of_isNil m hn] at h
    cases h

theorem GoMap.isNil_set (m : GoMap) (k : String) (v : Nat) : (m.set k v).isNil = false := by
  unfold GoMap.set
  split <;> rfl

theorem GoMap.assign_of_not_nil (m : GoMap) (h : m.isNil = false) (k : String) (v : Nat) :
    m.assign k v = some (m.set k v) := by
  simp [GoMap.assign, h]

theorem GoMap.assign_of_isNil (m : GoMap) (h : m.isNil = true) (k : String) (v : Nat) :
    m.assign k v = none := by
  simp [GoMap.assign, h]

theorem discover_nil (base : String → String) (rank : GoMap) :
    DictRanking.RankDictionaries.discover base rank [] = some rank := rfl

theorem discover_cons (base : String → String) (rank : GoMap) (p : String)
    (rest : List String) :
    DictRanking.RankDictionaries.discover base rank (p :: rest) =
      if rank.get? (base p) = none then
        if rank.isNil = true then none
        else DictRanking.RankDictionaries.discover base (rank.set (base p) 0) rest
      else DictRanking.RankDictionaries.discover base rank rest := by
  cases h : rank.get? (base p) with
  | none =>
    cases hn : rank.isNil <;>
      simp [DictRanking.RankDictionaries.discover, h, GoMap.assign, hn]
  | some w => simp [DictRanking.RankDictionaries.discover, h]

/-- On a table that is not nil the loop returns, with a table that is not nil. -/
theorem discover_of_not_nil (base : String → String) (rank : GoMap) (C : List String)
    (h : rank.isNil = false) :
    ∃ t, DictRanking.RankDictionaries.discover base rank C = some t ∧ t.isNil = false := by
  induction C generalizing rank with
  | nil => exact ⟨rank, rfl, h⟩
  | cons p rest ih =>
    rw [discover_cons]
    by_cases hp : rank.get? (base p) = none
    · rw [if_pos hp, if_neg (by rw [h]; exact Bool.false_ne_true)]
      exact ih _ (GoMap.isNil_set _ _ _)
    · rw [if_neg hp]
      exact ih _ h

/-- On the nil map the loop panics at the first candidate. -/
theorem discover_of_isNil (base : String → String) (rank : GoMap) (p : String)
    (rest : List String) (h : rank.isNil = true) :
    DictRanking.RankDictionaries.discover base rank (p :: rest) = none := by
  rw [discover_cons, if_pos (GoMap.get?_of_isNil rank h _), if_pos h]

/-- Entries present before the loop keep their score. -/
theorem discover_get?_of_some (base : String → String) (rank : GoMap) (C : List String)
    (t : GoMap) (ht : DictRanking.RankDictionaries.discover base rank C = some t)
    (k : String) (v : Nat) (h : rank.get? k = some v) : t.get? k = some v := by
  induction C generalizing rank with
  | nil =>
    cases ht
    exact h
  | cons p rest ih =>
    rw [discover_cons] at ht
    by_cases hp : rank.get? (base p) = none
    · rw [if_pos hp] at ht
      by_cases hn : rank.isNil = true
      · rw [if_pos hn] at ht
        cases ht
      · rw [if_neg hn] at ht
        apply ih _ ht
        rw [GoMap.get?_set_ne _ _ _ _ (fun hk => by rw [hk, hp] at h; cases h)]
        exact h
    · rw [if_neg hp] at ht
      exact ih _ ht h

/-- The base name of every candidate is a key after the loop, with score 0 when it was not
one before. -/
theorem discover_get?_base (base : String → String) (rank : GoMap) (C : List String)
    (t : GoMap) (ht : DictRanking.RankDictionaries.discover base rank C = some t)
    (p : String) (hp : p ∈ C) :
    (∃ v, t.get? (base p) = some v) ∧
      (rank.get? (base p) = none → t.get? (base p) = some 0) := by
  induction C generalizing rank with
  | nil => cases hp
  | cons q rest ih =>
    rw [discover_cons] at ht
    by_cases hq : base q = base p
    · -- the key is settled when `q` is visited
      by_cases hn : rank.get? (base q) = none
      · rw [if_pos hn] at ht
        by_cases hnil : rank.isNil = true
        · rw [if_pos hnil] at ht
          cases ht
        · rw [if_neg hnil] at ht
          have h0 : (rank.set (base q) 0).get? (base p) = some 0 := by
            rw [← hq]
            exact GoMap.get?_set_self _ _ _
          exact ⟨⟨0, discover_get?_of_some base _ rest t ht _ _ h0⟩,
            fun _ => discover_get?_of_some base _ rest t ht _ _ h0⟩
      · rw [if_neg hn] at ht
        rw [hq] at hn
        obtain ⟨w, hw⟩ := Option.ne_none_iff_exists'.1 hn
        exact ⟨⟨w, discover_get?_of_some base _ rest t ht _ _ hw⟩, fun h => absurd h hn⟩
    · have hp' : p ∈ rest := by
        rcases List.mem_cons.1 hp with h | h
        · exact absurd (h ▸ rfl) hq
        · exact h
      by_cases hn : rank.get? (base q) = none
      · rw [if_pos hn] at ht
        by_cases hnil : rank.isNil = true
        · rw [if_pos hnil] at ht
          cases ht
        · rw [if_neg hnil] at ht
          obtain ⟨h1, h2⟩ := ih _ ht hp'
          refine ⟨h1, fun h => h2 ?_⟩
          rw [GoMap.get?_set_ne _ _ _ _ (fun h' => hq h'.symm)]
          exact h
      · rw [if_neg hn] at ht
        exact ih _ ht hp'

/-- Every entry after the loop was there before, or has score 0 and the base name of a
candidate as key. -/
theorem discover_get?_origin (base : String → String) (rank : GoMap) (C : List String)
    (t : GoMap) (ht : DictRanking.RankDictionaries.discover base rank C = some t)
    (k : String) (v : Nat) (h : t.get? k = some v) :
    rank.get? k = some v ∨ (rank.get? k = none ∧ v = 0 ∧ ∃ p ∈ C, base p = k) := by
  induction C generalizing rank with
  | nil =>
    cases ht
    exact Or.inl h
  | cons q rest ih =>
    rw [discover_cons] at ht
    by_cases hn : rank.get? (base q) = none
    · rw [if_pos hn] at ht
      by_cases hnil : rank.isNil = true
      · rw [if_pos hnil] at ht
        cases ht
      · rw [if_neg hnil] at ht
        by_cases hk : k = base q
        · subst hk
          have h0 := discover_get?_of_some base (rank.set (base q) 0) rest t ht (base q) 0
            (GoMap.get?_set_self _ _ _)
          rw [h0] at h
          exact Or.inr ⟨hn, (Option.some.inj h).symm, q, List.mem_cons_self _ _, rfl⟩
        · rcases ih _ ht with h' | ⟨h1, h2, p, hp, hpk⟩
          · rw [GoMap.get?_set_ne _ _ _ _ hk] at h'
            exact Or.inl h'
          · rw [GoMap.get?_set_ne _ _ _ _ hk] at h1
            exact Or.inr ⟨h1, h2, p, List.mem_cons_of_mem _ hp, hpk⟩
    · rw [if_neg hn] at ht
      rcases ih _ ht with h' | ⟨h1, h2, p, hp, hpk⟩
      · exact Or.inl h'
      · exact Or.inr ⟨h1, h2, p, List.mem_cons_of_mem _ hp, hpk⟩

/-- The ranking and the stats file after `UpdateStats` on a table that is not nil. -/
theorem UpdateStats_of_not_nil (base : String → String) (writeOk : Bool) (dr : DictRanking)
    (statsFile : Option (List (String × Nat))) (p : String) (k : Nat)
    (h : dr.Rank.isNil = false) :
    dr.UpdateStats base writeOk statsFile p k =
      some (⟨dr.StatsFile, dr.DictsDir, dr.Rank.set (base p)
          (match dr.Rank.get? (base p) with
           | none => k
           | some stats => (stats + k) % 2 ^ 64)⟩,
        if writeOk then
          some (marshalRank (dr.Rank.set (base p)
            (match dr.Rank.get? (base p) with
             | none => k
             | some stats => (stats + k) % 2 ^ 64)))
        else statsFile) := by
  unfold DictRanking.UpdateStats
  cases hg : dr.Rank.get? (base p) <;>
    simp [hg, GoMap.assign, h, DictRanking.Save]

/-- On the nil map `UpdateStats` panics. -/
theorem UpdateStats_of_isNil (base : String → String) (writeOk : Bool) (dr : DictRanking)
    (statsFile : Option (List (String × Nat))) (p : String) (k : Nat)
    (h : dr.Rank.isNil = true) :
    dr.UpdateStats base writeOk statsFile p k = none := by
  unfold DictRanking.UpdateStats
  simp [GoMap.get?_of_isNil dr.Rank h, GoMap.assign, h]

/-- A call of `UpdateStats` that returns was made on a table that is not nil. -/
theorem UpdateStats_not_nil (base : String → String) (writeOk : Bool) (dr : DictRanking)
    (statsFile : Option (List (String × Nat))) (p : String) (k : Nat)
    (u : DictRanking × Option (List (String × Nat)))
    (hu : dr.UpdateStats base writeOk statsFile p k = some u) : dr.Rank.isNil = false := by
  cases hn : dr.Rank.isNil with
  | false => rfl
  | true =>
    rw [UpdateStats_of_isNil base writeOk dr statsFile p k hn] at hu
    cases hu

/-- The table after `UpdateStats`. -/
theorem UpdateStats_rank (base : String → String) (writeOk : Bool) (dr : DictRanking)
    (statsFile : Option (List (String × Nat))) (p : String) (k : Nat)
    (u : DictRanking × Option (List (String × Nat)))
    (hu : dr.UpdateStats base writeOk statsFile p k = some u) :
    u.1.Rank =
      dr.Rank.set (base p)
        (match dr.Rank.get? (base p) with
         | none => k
         | some stats => (stats + k) % 2 ^ 64) := by
  rw [UpdateStats_of_not_nil base writeOk dr statsFile p k
    (UpdateStats_not_nil base writeOk dr statsFile p k u hu)] at hu
  cases hu
  rfl

theorem UpdateStats_dictsDir (base : String → String) (writeOk : Bool) (dr : DictRanking)
    (statsFile : Option (List (String × Nat))) (p : String) (k : Nat)
    (u : DictRanking × Option (List (String × Nat)))
    (hu : dr.UpdateStats base writeOk statsFile p k = some u) :
    u.1.DictsDir = dr.DictsDir := by
  rw [UpdateStats_of_not_nil base writeOk dr statsFile p k
    (UpdateStats_not_nil base writeOk dr statsFile p k u hu)] at hu
  cases hu
  rfl

/-! ### Facts about `sort.Slice`, Go's insertion sort and `SortDict` -/

theorem insert_perm (less : kv → kv → Bool) (x : kv) (l : List kv) :
    (insertionSort_func.insert less x l).Perm (x :: l) := by
  induction l with
  | nil => exact List.Perm.refl _
  | cons y ys ih =>
    unfold insertionSort_func.insert
    split
    · exact ((ih.cons y).trans (List.Perm.swap x y ys))
    · exact List.Perm.refl _

theorem insert_sorted (less : kv → kv → Bool)
    (hasym : ∀ a b, less a b = true → less b a = false)
    (hneg : ∀ a b c, less a c = true → less a b = true ∨ less b c = true)
    (x : kv) (l : List kv) (hl : l.Pairwise (fun a b => less a b = false)) :
    (insertionSort_func.insert less x l).Pairwise (fun a b => less a b = false) := by
  induction l with
  | nil => simp [insertionSort_func.insert]
  | cons y ys ih =>
    rw [List.pairwise_cons] at hl
    unfold insertionSort_func.insert
    split
    · rename_i hxy
      refine List.pairwise_cons.2 ⟨fun z hz => ?_, ih hl.2⟩
      rcases List.mem_cons.1 ((insert_perm less x ys).mem_iff.1 hz) with h | h
      · rw [h]
        exact hasym _ _ hxy
      · exact hl.1 z h
    · rename_i hxy
      have hxy' : less x y = false := by simpa using hxy
      refine List.pairwise_cons.2 ⟨fun z hz => ?_, List.pairwise_cons.2 hl⟩
      rcases List.mem_cons.1 hz with h | h
      · rw [h]
        exact hxy'
      · cases hxz : less x z with
        | false => rfl
        | true =>
          rcases hneg x y z hxz with h1 | h1
          · rw [hxy'] at h1
            cases h1
          · rw [hl.1 z h] at h1
            cases h1

/-- Go's insertion sort meets the contract of `sort.Slice`. -/
theorem insertionSort_func_spec : SortSliceSpec insertionSort_func := by
  constructor
  · intro less l
    unfold insertionSort_func
    refine (List.reverse_perm _).trans ?_
    induction l using List.reverseRecOn with
    | nil => exact List.Perm.refl _
    | append_singleton l x ih =>
      rw [List.foldl_append, List.foldl_cons, List.foldl_nil]
      exact (insert_perm less x _).trans
        ((ih.cons x).trans (List.perm_append_singleton x l).symm)
  · intro less l hasym hneg
    unfold insertionSort_func
    rw [List.pairwise_reverse]
    induction l using List.reverseRecOn with
    | nil => exact List.Pairwise.nil
    | append_singleton l x ih =>
      rw [List.foldl_append, List.foldl_cons, List.foldl_nil]
      exact insert_sorted less hasym hneg x _ ih

theorem insert_sublist (less : kv → kv → Bool) (x : kv) (l : List kv) :
    l.Sublist (insertionSort_func.insert less x l) := by
  induction l with
  | nil => simp
  | cons y ys ih =>
    unfold insertionSort_func.insert
    split
    · exact ih.cons₂ y
    · exact List.Sublist.cons x (List.Sublist.refl _)

theorem insert_before (less : kv → kv → Bool) (x y : kv) (l : List kv) (hy : y ∈ l)
    (hxy : less x y = false) :
    List.Sublist [x, y] (insertionSort_func.insert less x l) := by
  induction l with
  | nil => cases hy
  | cons z zs ih =>
    unfold insertionSort_func.insert
    split
    · rename_i hxz
      rcases List.mem_cons.1 hy with h | h
      · rw [h, hxz] at hxy
        cases hxy
      · exact (ih h).cons z
    · exact (List.singleton_sublist.2 hy).cons₂ x

/-- Go's insertion sort is stable: an element that is not `less` than one placed before it
stays behind it. -/
theorem insertionSort_func_stable (less : kv → kv → Bool) (l : List kv) (x y : kv)
    (hsub : List.Sublist [x, y] l) (hyx : less y x = false) :
    List.Sublist [x, y] (insertionSort_func less l) := by
  unfold insertionSort_func
  have key : List.Sublist [y, x]
      (l.foldl (fun sorted x => insertionSort_func.insert less x sorted) []) := by
    induction l using List.reverseRecOn with
    | nil => cases hsub
    | append_singleton l z ih =>
      rw [List.foldl_append, List.foldl_cons, List.foldl_nil]
      obtain ⟨l₁, l₂, hsplit, h₁, h₂⟩ := List.sublist_append_iff.1 hsub
      have hz : l₂ = [] ∨ l₂ = [z] := by
        rcases List.sublist_cons_iff.1 h₂ with h | ⟨r, hr, hr'⟩
        · exact Or.inl (List.sublist_nil.1 h)
        · rw [List.sublist_nil.1 hr'] at hr
          exact Or.inr hr
      rcases hz with h | h
      · subst h
        rw [List.append_nil] at hsplit
        subst hsplit
        exact (ih h₁).trans (insert_sublist less z _)
      · subst h
        have hx : l₁ = [x] ∧ z = y := by
          cases l₁ with
          | nil => simp at hsplit
          | cons a t =>
            cases t with
            | nil => simpa [eq_comm] using hsplit
            | cons b t' => simp at hsplit
        obtain ⟨h1, h2⟩ := hx
        subst h1 h2
        have hmem : x ∈ l.foldl (fun sorted x => insertionSort_func.insert less x sorted) [] := by
          have hperm : (l.foldl (fun sorted x => insertionSort_func.insert less x sorted)
              []).Perm l := by
            have := (insertionSort_func_spec.perm less l)
            unfold insertionSort_func at this
            exact (List.reverse_perm _).symm.trans this
          exact hperm.mem_iff.2 (List.singleton_sublist.1 h₁)
        exact insert_before less z x _ hmem hyx
  simpa using key.reverse

theorem SortDict.less_asymm (a b : kv) (h : SortDict.less a b = true) :
    SortDict.less b a = false := by
  simp only [SortDict.less, decide_eq_true_eq, decide_eq_false_iff_not] at *
  omega

theorem SortDict.less_negTrans (a b c : kv) (h : SortDict.less a c = true) :
    SortDict.less a b = true ∨ SortDict.less b c = true := by
  simp only [SortDict.less, decide_eq_true_eq] at *
  omega

theorem append_left_injective (d a b : String) (h : d ++ a = d ++ b) : a = b := by
  have h' := congrArg String.data h
  rw [String.data_append, String.data_append] at h'
  exact String.ext (List.append_cancel_left h')

/-- The score of the path built from an entry of the table is the score of that entry. -/
theorem scoreOf_path (dr : DictRanking) (k : String) (v : Nat)
    (h : (k, v) ∈ dr.Rank.entries) : dr.scoreOf (dr.DictsDir ++ k) = some v := by
  unfold DictRanking.scoreOf
  have hnd := dr.Rank.nodupKeys
  generalize dr.Rank.entries = l at h hnd
  induction l with
  | nil => cases h
  | cons e es ih =>
    rw [List.map_cons, List.nodup_cons] at hnd
    rw [List.find?_cons]
    by_cases he : e.1 = k
    · have hek : e = (k, v) := by
        rcases List.mem_cons.1 h with h' | h'
        · exact h'.symm
        · exact absurd (List.mem_map.2 ⟨(k, v), h', he.symm⟩) hnd.1
      simp [hek]
    · have hb : (dr.DictsDir ++ e.1 == dr.DictsDir ++ k) = false := by
        simpa using fun h' => he (append_left_injective _ _ _ h')
      have hmem : (k, v) ∈ es := by
        rcases List.mem_cons.1 h with h' | h'
        · exact absurd (by rw [← h']) he
        · exact h'
      simp only [hb]
      exact ih hmem hnd.2

/-- What `SortDict` returns, for any `sort.Slice` that meets its contract and any order in
which the `range` loop visits the table: a permutation of the table's entries, as paths with
their scores, in which no score exceeds one placed before it. -/
theorem SortDict_spec (sortSlice : (kv → kv → Bool) → List kv → List kv)
    (hs : SortSliceSpec sortSlice) (dr : DictRanking) (visit : List (String × Nat))
    (hv : visit.Perm dr.Rank.entries) :
    (dr.SortDict sortSlice visit).Perm
        (dr.Rank.entries.map (fun e => kv.mk (dr.DictsDir ++ e.1) e.2)) ∧
      (dr.SortDict sortSlice visit).Pairwise (fun a b => b.Value ≤ a.Value) ∧
      ∀ a ∈ dr.SortDict sortSlice visit, dr.scoreOf a.Key = some a.Value := by
  have hperm : (dr.SortDict sortSlice visit).Perm
      (dr.Rank.entries.map (fun e => kv.mk (dr.DictsDir ++ e.1) e.2)) :=
    (hs.perm _ _).trans (hv.map _)
  refine ⟨hperm, ?_, ?_⟩
  · refine (hs.sorted SortDict.less _ SortDict.less_asymm SortDict.less_negTrans).imp ?_
    intro a b hab
    simp only [SortDict.less, decide_eq_false_iff_not] at hab
    omega
  · intro a ha
    obtain ⟨e, he, rfl⟩ := List.mem_map.1 (hperm.mem_iff.1 ha)
    exact scoreOf_path dr e.1 e.2 he

/-- In a list where no element is `R`-after an earlier one, two members `x`, `y` with `y`
not allowed before `x` occur in the order `x`, `y`. -/
theorem sublist_pair_of_pairwise {α : Type} {R : α → α → Prop} {l : List α}
    (hl : l.Pairwise R) {x y : α} (hx : x ∈ l) (hy : y ∈ l) (hxy : x ≠ y) (hR : ¬ R y x) :
    List.Sublist [x, y] l := by
  induction l with
  | nil => cases hx
  | cons z zs ih =>
    rw [List.pairwise_cons] at hl
    rcases List.mem_cons.1 hx with h | h
    · subst h
      rcases List.mem_cons.1 hy with h' | h'
      · exact absurd h'.symm hxy
      · exact (List.singleton_sublist.2 h').cons₂ x
    · rcases List.mem_cons.1 hy with h' | h'
      · subst h'
        exact absurd (hl.1 x h) hR
      · exact (ih hl.2 h h').cons z

/-! ### Facts about `RankDictionaries` -/

/-- What a call of `RankDictionaries` that returns has computed. -/
theorem RankDictionaries_eq_some (base : String → String)
    (sortSlice : (kv → kv → Bool) → List kv → List kv) (dr : DictRanking) (C : List String)
    (visit : List (String × Nat)) (r : DictRanking × List String)
    (hr : dr.RankDictionaries base sortSlice C visit = some r) :
    DictRanking.RankDictionaries.discover base dr.Rank C = some r.1.Rank ∧
      r.1.DictsDir = dr.DictsDir ∧ r.1.StatsFile = dr.StatsFile ∧
      r.2 = (r.1.SortDict sortSlice visit).map kv.Key := by
  unfold DictRanking.RankDictionaries at hr
  cases hd : DictRanking.RankDictionaries.discover base dr.Rank C with
  | none =>
    rw [hd] at hr
    cases hr
  | some t =>
    rw [hd] at hr
    cases hr
    exact ⟨rfl, rfl, rfl, rfl⟩

/-- On a table that is not nil `RankDictionaries` returns. -/
theorem RankDictionaries_of_not_nil (base : String → String)
    (sortSlice : (kv → kv → Bool) → List kv → List kv) (dr : DictRanking) (C : List String)
    (visit : List (String × Nat)) (h : dr.Rank.isNil = false) :
    ∃ r, dr.RankDictionaries base sortSlice C visit = some r := by
  obtain ⟨t, ht, _⟩ := discover_of_not_nil base dr.Rank C h
  unfold DictRanking.RankDictionaries
  rw [ht]
  exact ⟨_, rfl⟩

/-- On the nil map `RankDictionaries` panics when there is a candidate. -/
theorem RankDictionaries_of_isNil (base : String → String)
    (sortSlice : (kv → kv → Bool) → List kv → List kv) (dr : DictRanking) (p : String)
    (rest : List String) (visit : List (String × Nat)) (h : dr.Rank.isNil = true) :
    dr.RankDictionaries base sortSlice (p :: rest) visit = none := by
  unfold DictRanking.RankDictionaries
  rw [discover_of_isNil base dr.Rank p rest h]

/-- A dictionary with a strictly higher score is ranked before one with a lower score, for
any `sort.Slice` that meets its contract and any order of the `range` loop. -/
theorem RankDictionaries_higher_first (base : String → String)
    (sortSlice : (kv → kv → Bool) → List kv → List kv) (hs : SortSliceSpec sortSlice)
    (dr : DictRanking) (C : List String) (visit : List (String × Nat))
    (r : DictRanking × List String)
    (hr : dr.RankDictionaries base sortSlice C visit = some r)
    (hv : visit.Perm r.1.Rank.entries)
    (k₁ k₂ : String) (v₁ v₂ : Nat)
    (h₁ : r.1.Rank.get? k₁ = some v₁) (h₂ : r.1.Rank.get? k₂ = some v₂) (hlt : v₂ < v₁) :
    rankedBefore (dr.DictsDir ++ k₁) (dr.DictsDir ++ k₂) r.2 := by
  obtain ⟨_, hdir, _, hout⟩ := RankDictionaries_eq_some base sortSlice dr C visit r hr
  obtain ⟨hperm, hsorted, _⟩ := SortDict_spec sortSlice hs r.1 visit hv
  have m₁ : kv.mk (r.1.DictsDir ++ k₁) v₁ ∈ r.1.SortDict sortSlice visit :=
    hperm.mem_iff.2 (List.mem_map.2 ⟨(k₁, v₁), (GoMap.get?_eq_some_iff _ _ _).1 h₁, rfl⟩)
  have m₂ : kv.mk (r.1.DictsDir ++ k₂) v₂ ∈ r.1.SortDict sortSlice visit :=
    hperm.mem_iff.2 (List.mem_map.2 ⟨(k₂, v₂), (GoMap.get?_eq_some_iff _ _ _).1 h₂, rfl⟩)
  have hne : kv.mk (r.1.DictsDir ++ k₁) v₁ ≠ kv.mk (r.1.DictsDir ++ k₂) v₂ := by
    intro h
    have := congrArg kv.Value h
    simp only at this
    omega
  have hsub := sublist_pair_of_pairwise hsorted m₁ m₂ hne (by simp only; omega)
  rw [hout, ← hdir]
  exact hsub.map kv.Key

/-- The first loop changes nothing once every candidate's base name is a key. -/
theorem discover_eq_self (base : String → String) (rank : GoMap) (C : List String)
    (h : ∀ p ∈ C, rank.get? (base p) ≠ none) :
    DictRanking.RankDictionaries.discover base rank C = some rank := by
  induction C with
  | nil => rfl
  | cons q rest ih =>
    rw [discover_cons, if_neg (h q (List.mem_cons_self _ _))]
    exact ih (fun p hp => h p (List.mem_cons_of_mem _ hp))

theorem discover_idem (base : String → String) (rank : GoMap) (C : List String) (t : GoMap)
    (ht : DictRanking.RankDictionaries.discover base rank C = some t) :
    DictRanking.RankDictionaries.discover base t C = some t := by
  apply discover_eq_self
  intro p hp
  obtain ⟨⟨v, hv⟩, _⟩ := discover_get?_base base rank C t ht p hp
  rw [hv]
  exact Option.some_ne_none v

/-- The returned paths are those of the table's entries, each once. -/
theorem RankDictionaries_paths (base : String → String)
    (sortSlice : (kv → kv → Bool) → List kv → List kv) (hs : SortSliceSpec sortSlice)
    (dr : DictRanking) (C : List String) (visit : List (String × Nat))
    (r : DictRanking × List String)
    (hr : dr.RankDictionaries base sortSlice C visit = some r)
    (hv : visit.Perm r.1.Rank.entries) :
    r.2.Perm (r.1.Rank.entries.map (fun e => dr.DictsDir ++ e.1)) ∧ r.2.Nodup := by
  obtain ⟨_, hdir, _, hout⟩ := RankDictionaries_eq_some base sortSlice dr C visit r hr
  obtain ⟨hperm, _, _⟩ := SortDict_spec sortSlice hs r.1 visit hv
  have h : r.2.Perm (r.1.Rank.entries.map (fun e => dr.DictsDir ++ e.1)) := by
    have := hperm.map kv.Key
    rw [List.map_map, ← hout, hdir] at this
    exact this
  refine ⟨h, h.nodup_iff.2 ?_⟩
  have hk := r.1.Rank.nodupKeys
  have hmap : r.1.Rank.entries.map (fun e => dr.DictsDir ++ e.1) =
      (r.1.Rank.entries.map Prod.fst).map (fun k => dr.DictsDir ++ k) := by
    rw [List.map_map]
    rfl
  rw [hmap]
  exact hk.map (fun a b hab => append_left_injective _ _ _ hab)

/-- The ranking scenario holds whatever the order of the `range` loop and whatever
`sort.Slice` does within its contract: the three scores differ. -/
theorem RankDictionaries_scenario (sortSlice : (kv → kv → Bool) → List kv → List kv)
    (hs : SortSliceSpec sortSlice) (visit : List (String × Nat))
    (hv : visit.Perm [("a.dico", 10), ("b.dico", 5), ("c.dico", 0)]) :
    (scenarioRanking.RankDictionaries filepathBase sortSlice ["a.dico", "b.dico", "c.dico"]
      visit).map Prod.snd = some ["a.dico", "b.dico", "c.dico"] := by
  obtain ⟨r, hr⟩ := RankDictionaries_of_not_nil filepathBase sortSlice scenarioRanking
    ["a.dico", "b.dico", "c.dico"] visit rfl
  obtain ⟨hdisc, hdir, _, hout⟩ := RankDictionaries_eq_some filepathBase sortSlice
    scenarioRanking ["a.dico", "b.dico", "c.dico"] visit r hr
  have hd : (DictRanking.RankDictionaries.discover filepathBase scenarioRanking.Rank
      ["a.dico", "b.dico", "c.dico"]).map GoMap.entries =
      some [("a.dico", 10), ("b.dico", 5), ("c.dico", 0)] := by
    decide
  have hentries : r.1.Rank.entries = [("a.dico", 10), ("b.dico", 5), ("c.dico", 0)] := by
    rw [hdisc] at hd
    exact Option.some.inj hd
  obtain ⟨hperm, hsorted, _⟩ := SortDict_spec sortSlice hs r.1 visit
    (by rw [hentries]; exact hv)
  rw [hentries] at hperm
  have hroot : r.1.DictsDir = "" := hdir
  have htarget : List.map (fun e : String × Nat => kv.mk (r.1.DictsDir ++ e.1) e.2)
      [("a.dico", 10), ("b.dico", 5), ("c.dico", 0)] =
      [⟨"a.dico", 10⟩, ⟨"b.dico", 5⟩, ⟨"c.dico", 0⟩] := by
    rw [hroot]
    decide
  rw [htarget] at hperm
  have hnodup : (r.1.SortDict sortSlice visit).Pairwise (fun a b => a.Value ≠ b.Value) := by
    rw [← List.pairwise_map (f := kv.Value) (R := fun x y => x ≠ y)]
    exact (hperm.map kv.Value).nodup_iff.2 (by decide)
  have hstrict : (r.1.SortDict sortSlice visit).Pairwise (fun a b => b.Value < a.Value) :=
    (hsorted.and hnodup).imp (fun {a b} h => by omega)
  haveI : IsAntisymm kv (fun a b => b.Value < a.Value) :=
    ⟨fun a b h₁ h₂ => by omega⟩
  have heq := List.eq_of_perm_of_sorted hperm hstrict (by decide)
  rw [hr, Option.map_some', hout, heq]
  rfl

/-! ## The claims -/

/-- C1: for every existing corpus (absent, or with lines `E`) and every list `N` of new
credentials, the list `updateHistoricalDict` writes to the corpus, joined by newlines, is
strictly increasing in the lexicographic order (sorted, no two equal entries), a string is in
it exactly when it occurs in `E` or in `N`, and each such string occurs exactly once.  With
`E = [alice, bob]` and `N = [bob, carol]` the corpus is `[alice, bob, carol]`. -/
theorem updateHistoricalDict_sorted_unique (existing : Option (List String))
    (N : List String) (old : Option String) :
    updateHistoricalDict existing true old N =
        (some (String.intercalate "\n" (updateHistoricalDict.uniquePasswords existing N)), true) ∧
      (updateHistoricalDict.uniquePasswords existing N).Sorted (· < ·) ∧
      (updateHistoricalDict.uniquePasswords existing N).Nodup ∧
      (∀ s, s ∈ updateHistoricalDict.uniquePasswords existing N ↔
        s ∈ existing.getD [] ∨ s ∈ N) ∧
      (∀ s, s ∈ existing.getD [] ∨ s ∈ N →
        (updateHistoricalDict.uniquePasswords existing N).count s = 1) ∧
      updateHistoricalDict (some ["alice", "bob"]) true old ["bob", "carol"] =
        (some "alice\nbob\ncarol", true) := by
  have hmem : ∀ s, s ∈ updateHistoricalDict.uniquePasswords existing N ↔
      s ∈ existing.getD [] ∨ s ∈ N := by
    intro s
    simp [updateHistoricalDict.uniquePasswords, mem_removeDuplicates_sortStrings]
  refine ⟨rfl, removeDuplicates_sortStrings_sorted _, removeDuplicates_nodup _, hmem, ?_, ?_⟩
  · intro s hs
    exact List.count_eq_one_of_mem (removeDuplicates_nodup _) ((hmem s).2 hs)
  · have h : updateHistoricalDict.uniquePasswords (some ["alice", "bob"]) ["bob", "carol"] =
        ["alice", "bob", "carol"] := by decide
    have hj : String.intercalate "\n" ["alice", "bob", "carol"] = "alice\nbob\ncarol" := by
      decide
    simp [updateHistoricalDict, h, osWriteFile, hj]

/-- C2 (evaluation at the failing input): the first extraction returns 2; the second, at
store size 20, fails on the engine query and returns 0, leaving the watermark at 20, the
custom dictionary purged and `cfg.HashcatFound` at 2; the third, still at size 20, makes no
write and returns 2.  The two consecutive calls at size 20 return 0 and 2. -/
theorem exportFoundPasswords_stale_count_after_failed_query :
    firstExtraction.ret = 2 ∧
      failedExtraction.ret = 0 ∧
      failedExtraction.cfg.HashcatPotfileSize = 20 ∧
      failedExtraction.cfg.HashcatFound = 2 ∧
      failedExtraction.files.customDict = some "" ∧
      repeatedExtraction.ret = 2 ∧
      repeatedExtraction.writes = [] ∧
      repeatedExtraction.files.customDict = some "" := by
  decide

/-- C3: when the result-store size differs from the watermark and the query and both file
writes succeed, `exportFoundPasswords` returns the number of distinct query-output rows that
are neither empty nor `[notfound]`, whatever count `cfg.HashcatFound` held before, and
stores that number in `cfg.HashcatFound`. -/
theorem exportFoundPasswords_returns_distinct_count (sys : SysCalls) (cfg : Config)
    (files : Files) (size : Int) (rows : List String) (hstat : sys.stat = some size)
    (hsize : size ≠ cfg.HashcatPotfileSize)
    (hwin : sys.windows = true → sys.getwdOk = true ∧ sys.chdirOk = true)
    (hout : sys.output = some rows) (hwc : sys.writeCustomOk = true)
    (hwh : sys.writeHistoricalOk = true) :
    (exportFoundPasswords sys cfg files).ret =
        (rows.toFinset.filter (fun r => r ≠ "" ∧ r ≠ "[notfound]")).card ∧
      (exportFoundPasswords sys cfg files).cfg.HashcatFound =
        (rows.toFinset.filter (fun r => r ≠ "" ∧ r ≠ "[notfound]")).card := by
  rw [exportFoundPasswords_success sys cfg files size rows hstat hsize hwin hout hwc hwh]
  have h : (rows.filter keepRow).toFinset =
      rows.toFinset.filter (fun r => r ≠ "" ∧ r ≠ "[notfound]") := by
    ext s
    simp [keepRow_iff]
  simp only [length_removeDuplicates_sortStrings, h, and_self]

/-- C3 at a concrete input: the query lists bob, `[notfound]`, carol, bob. -/
theorem exportFoundPasswords_returns_distinct_count_witness :
    (exportFoundPasswords (sysCalls 10 (some ["bob", "[notfound]", "carol", "bob"]) none)
        startConfig ⟨none, none⟩).ret =
        ((["bob", "[notfound]", "carol", "bob"] : List String).toFinset.filter
          (fun r => r ≠ "" ∧ r ≠ "[notfound]")).card ∧
      (exportFoundPasswords (sysCalls 10 (some ["bob", "[notfound]", "carol", "bob"]) none)
        startConfig ⟨none, none⟩).cfg.HashcatFound =
        ((["bob", "[notfound]", "carol", "bob"] : List String).toFinset.filter
          (fun r => r ≠ "" ∧ r ≠ "[notfound]")).card :=
  exportFoundPasswords_returns_distinct_count
    (sysCalls 10 (some ["bob", "[notfound]", "carol", "bob"]) none) startConfig ⟨none, none⟩
    10 ["bob", "[notfound]", "carol", "bob"] rfl (by decide) (by decide) rfl rfl rfl

/-- C4: on a successful extraction where the store size changed, the custom dictionary holds,
joined by newlines, the one strictly increasing list (sorted, without duplicates) whose
members are exactly the query-output rows that are neither empty nor `[notfound]`, whatever
the custom dictionary held before. -/
theorem exportFoundPasswords_customDict_snapshot (sys : SysCalls) (cfg : Config)
    (files : Files) (size : Int) (rows : List String) (hstat : sys.stat = some size)
    (hsize : size ≠ cfg.HashcatPotfileSize)
    (hwin : sys.windows = true → sys.getwdOk = true ∧ sys.chdirOk = true)
    (hout : sys.output = some rows) (hwc : sys.writeCustomOk = true)
    (hwh : sys.writeHistoricalOk = true) :
    ∃ snapshot : List String, snapshot.Sorted (· < ·) ∧
      (∀ s, s ∈ snapshot ↔ s ∈ rows ∧ s ≠ "" ∧ s ≠ "[notfound]") ∧
      (exportFoundPasswords sys cfg files).files.customDict =
        some (String.intercalate "\n" snapshot) ∧
      ∀ other : List String, other.Sorted (· < ·) →
        (∀ s, s ∈ other ↔ s ∈ rows ∧ s ≠ "" ∧ s ≠ "[notfound]") → other = snapshot := by
  have hmem : ∀ s, s ∈ removeDuplicates (sortStrings (rows.filter keepRow)) ↔
      s ∈ rows ∧ s ≠ "" ∧ s ≠ "[notfound]" := by
    intro s
    rw [mem_removeDuplicates_sortStrings]
    simp [keepRow_iff]
  refine ⟨removeDuplicates (sortStrings (rows.filter keepRow)),
    removeDuplicates_sortStrings_sorted _, hmem, ?_, fun other hsorted hother => ?_⟩
  · rw [exportFoundPasswords_success sys cfg files size rows hstat hsize hwin hout hwc hwh]
  · apply eq_of_sorted_of_mem_iff hsorted (removeDuplicates_sortStrings_sorted _)
    intro s
    rw [hother, hmem]

/-- C4 at a concrete input: the query lists carol, `[notfound]`, bob, carol and the custom
dictionary, whatever it held, becomes bob, carol. -/
theorem exportFoundPasswords_customDict_snapshot_witness :
    (∃ snapshot : List String, snapshot.Sorted (· < ·) ∧
      (∀ s, s ∈ snapshot ↔
        s ∈ ["carol", "[notfound]", "bob", "carol"] ∧ s ≠ "" ∧ s ≠ "[notfound]") ∧
      (exportFoundPasswords (sysCalls 10 (some ["carol", "[notfound]", "bob", "carol"]) none)
        startConfig ⟨some "stale\nentries", none⟩).files.customDict =
        some (String.intercalate "\n" snapshot) ∧
      ∀ other : List String, other.Sorted (· < ·) →
        (∀ s, s ∈ other ↔
          s ∈ ["carol", "[notfound]", "bob", "carol"] ∧ s ≠ "" ∧ s ≠ "[notfound]") →
        other = snapshot) ∧
      (exportFoundPasswords (sysCalls 10 (some ["carol", "[notfound]", "bob", "carol"]) none)
        startConfig ⟨some "stale\nentries", none⟩).files.customDict = some "bob\ncarol" :=
  ⟨exportFoundPasswords_customDict_snapshot
      (sysCalls 10 (some ["carol", "[notfound]", "bob", "carol"]) none) startConfig
      ⟨some "stale\nentries", none⟩ 10 ["carol", "[notfound]", "bob", "carol"] rfl (by decide)
      (by decide) rfl rfl rfl,
    by decide⟩

/-- C6: for every table, candidate list, order of the `range` loop and `sort.Slice` meeting
its contract, a call of `RankDictionaries` on a table that is not the nil map returns, and
the paths a call of `RankDictionaries` returns are in descending score order: the score of
the path at position `j` is at most the score of the path at any earlier position `i`. -/
theorem RankDictionaries_descending (base : String → String)
    (sortSlice : (kv → kv → Bool) → List kv → List kv) (hs : SortSliceSpec sortSlice)
    (dr : DictRanking) (dictPaths : List String) (visit : List (String × Nat))
    (r : DictRanking × List String)
    (hr : dr.RankDictionaries base sortSlice dictPaths visit = some r)
    (hv : visit.Perm r.1.Rank.entries)
    (i j : Nat) (p q : String) (hij : i < j)
    (hp : r.2[i]? = some p) (hq : r.2[j]? = some q) :
    (∀ (dr' : DictRanking) (C' : List String) (visit' : List (String × Nat)),
        dr'.Rank.isNil = false →
        ∃ r', dr'.RankDictionaries base sortSlice C' visit' = some r') ∧
      ∃ sp sq, r.1.scoreOf p = some sp ∧ r.1.scoreOf q = some sq ∧ sq ≤ sp := by
  refine ⟨fun dr' C' visit' h => RankDictionaries_of_not_nil base sortSlice dr' C' visit' h,
    ?_⟩
  obtain ⟨_, _, _, hout⟩ := RankDictionaries_eq_some base sortSlice dr dictPaths visit r hr
  obtain ⟨_, hsorted, hscore⟩ := SortDict_spec sortSlice hs r.1 visit hv
  rw [hout, List.getElem?_map] at hp hq
  obtain ⟨a, ha, rfl⟩ := Option.map_eq_some'.1 hp
  obtain ⟨b, hb, rfl⟩ := Option.map_eq_some'.1 hq
  obtain ⟨hi, hai⟩ := List.getElem?_eq_some.1 ha
  obtain ⟨hj, hbj⟩ := List.getElem?_eq_some.1 hb
  refine ⟨a.Value, b.Value, hscore a (hai ▸ List.getElem_mem _), hscore b (hbj ▸ List.getElem_mem _), ?_⟩
  have := List.pairwise_iff_getElem.1 hsorted i j hi hj hij
  rwa [hai, hbj] at this

/-- C6 at a concrete input: the table `a.dico: 10, b.dico: 5`, the candidates `a.dico`,
`b.dico`, `c.dico` and an empty ranking directory root give `[a.dico, b.dico, c.dico]`, in
whatever order the `range` loop visits the table; shown for the order `c.dico`, `b.dico`,
`a.dico`, the positions 1 and 2 hold the scores 5 and 0. -/
theorem RankDictionaries_descending_witness :
    (∀ (sortSlice : (kv → kv → Bool) → List kv → List kv) (visit : List (String × Nat)),
        SortSliceSpec sortSlice →
        visit.Perm [("a.dico", 10), ("b.dico", 5), ("c.dico", 0)] →
        (scenarioRanking.RankDictionaries filepathBase sortSlice
          ["a.dico", "b.dico", "c.dico"] visit).map Prod.snd =
          some ["a.dico", "b.dico", "c.dico"]) ∧
      ∃ r, scenarioRanking.RankDictionaries filepathBase insertionSort_func
          ["a.dico", "b.dico", "c.dico"]
          [("c.dico", 0), ("b.dico", 5), ("a.dico", 10)] = some r ∧
        ∃ sp sq, r.1.scoreOf "b.dico" = some sp ∧ r.1.scoreOf "c.dico" = some sq ∧
          sq ≤ sp :=
  ⟨fun sortSlice visit hs hv => RankDictionaries_scenario sortSlice hs visit hv,
    ⟨(scenarioRanking.RankDictionaries filepathBase insertionSort_func
        ["a.dico", "b.dico", "c.dico"]
        [("c.dico", 0), ("b.dico", 5), ("a.dico", 10)]).get (by decide),
      (Option.some_get _).symm,
      (RankDictionaries_descending filepathBase insertionSort_func insertionSort_func_spec
        scenarioRanking ["a.dico", "b.dico", "c.dico"]
        [("c.dico", 0), ("b.dico", 5), ("a.dico", 10)] _ (Option.some_get _).symm
        (by decide) 1 2 "b.dico" "c.dico" (by decide) (by decide) (by decide)).2⟩⟩

/-- C7 (evaluation at the failing input): on a stats file that holds the JSON text `null`,
`NewDictRanking` returns a ranking whose table is the nil map, and `RankDictionaries` on the
candidate `/opt/dico/a.dico` panics at the assignment of line 76: no table with `a.dico` at
score 0 results, and phase 3 ends the program there, before any run of the engine.  On the
nil map the call panics for every non-empty candidate list.  On every table that is not nil
the call returns, and afterwards the table holds every entry it held before with its score
unchanged, holds the base name of every candidate, with score 0 when that base name was not
a key, and holds no other key; ranking `/opt/dico/a.dico` and `/opt/dico/c.dico` on the
table `a.dico: 10, b.dico: 5` adds `c.dico` with score 0 and nothing else. -/
theorem RankDictionaries_table :
    nullRanking.Rank.isNil = true ∧
      (nullRanking.RankDictionaries filepathBase insertionSort_func ["/opt/dico/a.dico"]
        []).isNone = true ∧
      (startHashcatAutomation nullStatsEnv "3" 5
        (demoCampaign "0" 1 ["/opt/dico/a.dico"])).map
        (fun s => (s.panicked, phasesEntered s.events, commandLines s.events)) =
        some (true, ["3"], ([] : List (List String))) ∧
      (startHashcatAutomation nullStatsEnv "3" 5
        (demoCampaign "0" 1 ["/opt/dico/a.dico"])).map
        (fun s => s.ranking.map (fun dr => dr.Rank.entries)) = some (some []) ∧
      (∀ (base : String → String) (sortSlice : (kv → kv → Bool) → List kv → List kv)
          (dr : DictRanking) (p : String) (rest : List String) (visit : List (String × Nat)),
        dr.Rank.isNil = true →
        dr.RankDictionaries base sortSlice (p :: rest) visit = none) ∧
      (∀ (base : String → String) (sortSlice : (kv → kv → Bool) → List kv → List kv)
          (dr : DictRanking) (C : List String) (visit : List (String × Nat)),
        dr.Rank.isNil = false →
        ∃ r, dr.RankDictionaries base sortSlice C visit = some r ∧
          (∀ k v, dr.Rank.get? k = some v → r.1.Rank.get? k = some v) ∧
          (∀ p, p ∈ C → ∃ v, r.1.Rank.get? (base p) = some v) ∧
          (∀ p, p ∈ C → dr.Rank.get? (base p) = none → r.1.Rank.get? (base p) = some 0) ∧
          (∀ k v, r.1.Rank.get? k = some v →
            dr.Rank.get? k = some v ∨
              (dr.Rank.get? k = none ∧ v = 0 ∧ ∃ p, p ∈ C ∧ base p = k))) ∧
      (scenarioRanking.RankDictionaries filepathBase insertionSort_func
        ["/opt/dico/a.dico", "/opt/dico/c.dico"]
        [("c.dico", 0), ("b.dico", 5), ("a.dico", 10)]).map (fun r => r.1.Rank.entries) =
        some [("a.dico", 10), ("b.dico", 5), ("c.dico", 0)] := by
  refine ⟨by decide, by decide, by decide, by decide,
    fun base sortSlice dr p rest visit h =>
      RankDictionaries_of_isNil base sortSlice dr p rest visit h,
    fun base sortSlice dr C visit hnil => ?_, by decide⟩
  obtain ⟨r, hr⟩ := RankDictionaries_of_not_nil base sortSlice dr C visit hnil
  obtain ⟨hd, _, _, _⟩ := RankDictionaries_eq_some base sortSlice dr C visit r hr
  refine ⟨r, hr, fun k v h => discover_get?_of_some base dr.Rank C _ hd k v h,
    fun p hp => (discover_get?_base base dr.Rank C _ hd p hp).1,
    fun p hp h => (discover_get?_base base dr.Rank C _ hd p hp).2 h, fun k v h => ?_⟩
  rcases discover_get?_origin base dr.Rank C _ hd k v h with h' | ⟨h1, h2, p, hp, hpk⟩
  · exact Or.inl h'
  · exact Or.inr ⟨h1, h2, p, hp, hpk⟩

/-- C8 (counterexample): the entry `a.dico` holds `2 ^ 64 - 5`; after
`UpdateStats("a.dico", 10)` it holds 5, which is not the sum `2 ^ 64 + 5` of the old score
and the delta.  On the nil map, the table `NewDictRanking` returns for a stats file that
holds `null`, `UpdateStats("a.dico", 10)` panics at the assignment of line 61: no entry
results. -/
theorem UpdateStats_entry_is_not_the_sum :
    wrappedRanking.map (fun dr => dr.Rank.get? "a.dico") =
        some (some 18446744073709551611) ∧
      wrappedRanking.bind (fun dr =>
        (dr.UpdateStats filepathBase true none "a.dico" 10).map
          (fun u => u.1.Rank.get? "a.dico")) = some (some 5) ∧
      (5 : Nat) ≠ 18446744073709551611 + 10 ∧
      nullRanking.Rank.isNil = true ∧
      (nullRanking.UpdateStats filepathBase true none "a.dico" 10).isNone = true := by
  decide

/-- C8 (amended): on every table that is not the nil map, `UpdateStats(p, k)` returns, and
afterwards the entry keyed by the base name of `p` holds the `uint64` sum of the old score
and `k`, which is their sum modulo `2 ^ 64` and so their sum whenever that is below
`2 ^ 64`, when the base name was a key, and holds `k` when it was not, so it exists also for
`k = 0`; every entry under another key is unchanged.  `UpdateStats("x.dico", 0)` on the
empty table gives the entry `x.dico` with score 0. -/
theorem UpdateStats_entry (base : String → String) (writeOk : Bool) (dr : DictRanking)
    (statsFile : Option (List (String × Nat))) (p : String) (k : Nat)
    (hnil : dr.Rank.isNil = false) :
    ∃ u, dr.UpdateStats base writeOk statsFile p k = some u ∧
      (∀ old, dr.Rank.get? (base p) = some old →
        u.1.Rank.get? (base p) = some ((old + k) % 2 ^ 64)) ∧
      (∀ old, dr.Rank.get? (base p) = some old → old + k < 2 ^ 64 →
        u.1.Rank.get? (base p) = some (old + k)) ∧
      (dr.Rank.get? (base p) = none → u.1.Rank.get? (base p) = some k) ∧
      (∀ key, key ≠ base p → u.1.Rank.get? key = dr.Rank.get? key) ∧
      (freshRanking.UpdateStats filepathBase writeOk statsFile "x.dico" 0).map
        (fun u => u.1.Rank.entries) = some [("x.dico", 0)] := by
  refine ⟨_, UpdateStats_of_not_nil base writeOk dr statsFile p k hnil,
    fun old h => ?_, fun old h hlt => ?_, fun h => ?_, fun key hne => ?_, ?_⟩
  · show (dr.Rank.set _ _).get? _ = _
    rw [GoMap.get?_set_self, h]
  · show (dr.Rank.set _ _).get? _ = _
    rw [GoMap.get?_set_self, h]
    simp only [Nat.mod_eq_of_lt hlt]
  · show (dr.Rank.set _ _).get? _ = _
    rw [GoMap.get?_set_self, h]
  · show (dr.Rank.set _ _).get? _ = _
    rw [GoMap.get?_set_ne _ _ _ _ hne]
  · rw [UpdateStats_of_not_nil filepathBase writeOk freshRanking statsFile "x.dico" 0 rfl]
    show some (GoMap.set _ _ _).entries = _
    decide

/-- C8 (amended) at a concrete input: `UpdateStats("/opt/dico/b.dico", 3)` on `b.dico: 5`. -/
theorem UpdateStats_entry_witness :
    ∃ u, scenarioRanking.UpdateStats filepathBase true none "/opt/dico/b.dico" 3 = some u ∧
      u.1.Rank.get? (filepathBase "/opt/dico/b.dico") = some (5 + 3) := by
  obtain ⟨u, hu, _, h, _⟩ :=
    UpdateStats_entry filepathBase true scenarioRanking none "/opt/dico/b.dico" 3 rfl
  exact ⟨u, hu, h 5 (by decide) (by decide)⟩

/-- C9 (counterexample): `a.dico` and `b.dico` are discovered in this order on an empty
table and both have score 0.  With a `range` loop that visits `b.dico` first, and Go's
insertion sort, `RankDictionaries` returns `b.dico` before `a.dico`; a second call on the
same table, whose loop visits `a.dico` first, returns `a.dico` before `b.dico`. -/
theorem RankDictionaries_ties_not_in_discovery_order :
    firstRanking.map (fun r => r.1.Rank.entries) = some [("a.dico", 0), ("b.dico", 0)] ∧
      firstRanking.map (fun r =>
        decide (List.Perm [("b.dico", 0), ("a.dico", 0)] r.1.Rank.entries)) = some true ∧
      firstRanking.map Prod.snd = some ["b.dico", "a.dico"] ∧
      secondRanking.map (fun r => r.1.Rank.entries) =
        firstRanking.map (fun r => r.1.Rank.entries) ∧
      secondRanking.map Prod.snd = some ["a.dico", "b.dico"] := by
  decide

/-- C9 (amended): for every table and candidate list, whatever the order of the `range` loop
and whatever `sort.Slice` does within its contract, a call of `RankDictionaries` on a table
that is not the nil map returns, and a call of `RankDictionaries` returns the path of each
table entry exactly once; two calls on the same table return the same paths and
agree on the order of any two dictionaries with different scores (the higher score first).
The order of two dictionaries with equal score is not their discovery order: with Go's
insertion sort it is the order in which the `range` loop of that call visited them. -/
theorem RankDictionaries_ties (base : String → String)
    (s₁ s₂ : (kv → kv → Bool) → List kv → List kv) (hs₁ : SortSliceSpec s₁)
    (hs₂ : SortSliceSpec s₂) (dr : DictRanking) (C : List String)
    (visit₁ visit₂ : List (String × Nat)) (r₁ r₂ : DictRanking × List String)
    (hr₁ : dr.RankDictionaries base s₁ C visit₁ = some r₁)
    (hr₂ : r₁.1.RankDictionaries base s₂ C visit₂ = some r₂)
    (hv₁ : visit₁.Perm r₁.1.Rank.entries) (hv₂ : visit₂.Perm r₂.1.Rank.entries) :
    (∀ (sortSlice : (kv → kv → Bool) → List kv → List kv) (dr' : DictRanking)
        (C' : List String) (visit' : List (String × Nat)), dr'.Rank.isNil = false →
        ∃ r', dr'.RankDictionaries base sortSlice C' visit' = some r') ∧
      r₂.1.Rank.entries = r₁.1.Rank.entries ∧
      r₁.2.Nodup ∧
      r₁.2.Perm r₂.2 ∧
      (∀ k₁ k₂ v₁ v₂, r₁.1.Rank.get? k₁ = some v₁ → r₁.1.Rank.get? k₂ = some v₂ → v₂ < v₁ →
        rankedBefore (dr.DictsDir ++ k₁) (dr.DictsDir ++ k₂) r₁.2 ∧
          rankedBefore (dr.DictsDir ++ k₁) (dr.DictsDir ++ k₂) r₂.2) ∧
      (∀ (r : DictRanking × List String) (e₁ e₂ : String × Nat),
        dr.RankDictionaries base insertionSort_func C visit₁ = some r →
        e₁.2 = e₂.2 → List.Sublist [e₁, e₂] visit₁ →
        rankedBefore (dr.DictsDir ++ e₁.1) (dr.DictsDir ++ e₂.1) r.2) := by
  obtain ⟨hd₁, hdir₁, _, _⟩ := RankDictionaries_eq_some base s₁ dr C visit₁ r₁ hr₁
  obtain ⟨hd₂, _, _, _⟩ := RankDictionaries_eq_some base s₂ r₁.1 C visit₂ r₂ hr₂
  have htable : r₂.1.Rank = r₁.1.Rank := by
    rw [discover_idem base dr.Rank C _ hd₁] at hd₂
    exact (Option.some.inj hd₂).symm
  obtain ⟨hp₁, hn₁⟩ := RankDictionaries_paths base s₁ hs₁ dr C visit₁ r₁ hr₁ hv₁
  obtain ⟨hp₂, _⟩ := RankDictionaries_paths base s₂ hs₂ r₁.1 C visit₂ r₂ hr₂ hv₂
  refine ⟨fun sortSlice dr' C' visit' h =>
    RankDictionaries_of_not_nil base sortSlice dr' C' visit' h, by rw [htable], hn₁, ?_, ?_,
    ?_⟩
  · rw [htable, hdir₁] at hp₂
    exact hp₁.trans hp₂.symm
  · intro k₁ k₂ v₁ v₂ h₁ h₂ hlt
    refine ⟨RankDictionaries_higher_first base s₁ hs₁ dr C visit₁ r₁ hr₁ hv₁ k₁ k₂ v₁ v₂ h₁
      h₂ hlt, ?_⟩
    have := RankDictionaries_higher_first base s₂ hs₂ r₁.1 C visit₂ r₂ hr₂ hv₂ k₁ k₂ v₁ v₂
      (by rw [htable]; exact h₁) (by rw [htable]; exact h₂) hlt
    rwa [hdir₁] at this
  · intro r e₁ e₂ hr heq hsub
    obtain ⟨_, hdir, _, hout⟩ :=
      RankDictionaries_eq_some base insertionSort_func dr C visit₁ r hr
    have hsub' := hsub.map (fun e => kv.mk (r.1.DictsDir ++ e.1) e.2)
    have hstable := insertionSort_func_stable SortDict.less _ _ _ hsub'
      (by simp [SortDict.less, heq])
    rw [hout, ← hdir]
    exact hstable.map kv.Key

/-- C9 (amended) at a concrete input: the two rankings of `a.dico` and `b.dico`, both at
score 0. -/
theorem RankDictionaries_ties_witness :
    ∃ r₁ r₂, firstRanking = some r₁ ∧ secondRanking = some r₂ ∧
      (r₂.1.Rank.entries = r₁.1.Rank.entries ∧ r₁.2.Nodup ∧ r₁.2.Perm r₂.2) ∧
      rankedBefore "b.dico" "a.dico" r₁.2 := by
  have h₂ : secondRanking = some (secondRanking.get (by decide)) := (Option.some_get _).symm
  obtain ⟨r₁, hr₁, hr₂⟩ := Option.bind_eq_some.1 h₂
  have he₁ : r₁.1.Rank.entries = [("a.dico", 0), ("b.dico", 0)] := by
    have h : firstRanking.map (fun r => r.1.Rank.entries) =
        some [("a.dico", 0), ("b.dico", 0)] := by decide
    rw [hr₁] at h
    exact Option.some.inj h
  have h := RankDictionaries_ties filepathBase insertionSort_func insertionSort_func
    insertionSort_func_spec insertionSort_func_spec freshRanking
    ["a.dico", "b.dico"] [("b.dico", 0), ("a.dico", 0)] [("a.dico", 0), ("b.dico", 0)]
    r₁ (secondRanking.get (by decide)) hr₁ hr₂ (by rw [he₁]; decide) (by decide)
  exact ⟨r₁, _, hr₁, h₂, ⟨h.2.1, h.2.2.1, h.2.2.2.1⟩,
    h.2.2.2.2.2 r₁ ("b.dico", 0) ("a.dico", 0) hr₁ rfl (by decide)⟩

/-- C10 (counterexample): `a.dico` and `b.dico` both have score 0 and `a.dico` is ranked
before `b.dico`.  After `UpdateStats("a.dico", 0)` the score of `b.dico` is unchanged and
equal to the score of `a.dico`, and a ranking whose `range` loop visits `b.dico` first
returns `b.dico` before `a.dico`. -/
theorem UpdateStats_tie_loses_rank :
    secondRanking.map (fun r => decide (rankedBefore "a.dico" "b.dico" r.2)) = some true ∧
      thirdRanking.map (fun r =>
        decide (List.Perm [("b.dico", 0), ("a.dico", 0)] r.1.Rank.entries)) = some true ∧
      secondRanking.map (fun r => r.1.Rank.get? "b.dico") = some (some 0) ∧
      thirdRanking.map (fun r => r.1.Rank.get? "b.dico") = some (some 0) ∧
      thirdRanking.map (fun r => r.1.Rank.get? "a.dico") = some (some 0) ∧
      thirdRanking.map Prod.snd = some ["b.dico", "a.dico"] ∧
      thirdRanking.map (fun r => decide (rankedBefore "a.dico" "b.dico" r.2)) =
        some false := by
  decide

/-- C10 (amended): for every table, dictionary `d` and `k`, if dictionary `e` (another key)
has a score that is strictly less than the score of `d` after `UpdateStats(d, k)`, then the
score of `e` is unchanged and `d` is ranked before `e` by `RankDictionaries` after the
update, whatever their order was before.  Both calls return on every table that is not the
nil map. -/
theorem UpdateStats_then_ranked_before (base : String → String)
    (sortSlice : (kv → kv → Bool) → List kv → List kv) (hs : SortSliceSpec sortSlice)
    (writeOk : Bool) (dr : DictRanking) (statsFile : Option (List (String × Nat)))
    (C : List String) (visit : List (String × Nat)) (d e : String) (k se sd : Nat)
    (u : DictRanking × Option (List (String × Nat))) (r : DictRanking × List String)
    (hu : dr.UpdateStats base writeOk statsFile d k = some u)
    (hr : u.1.RankDictionaries base sortSlice C visit = some r)
    (hv : visit.Perm r.1.Rank.entries)
    (hne : e ≠ base d) (he : dr.Rank.get? e = some se)
    (hd : u.1.Rank.get? (base d) = some sd) (hlt : se < sd) :
    (∀ (dr' : DictRanking) (statsFile' : Option (List (String × Nat))) (d' : String)
        (k' : Nat) (C' : List String) (visit' : List (String × Nat)),
        dr'.Rank.isNil = false →
        ∃ u' r', dr'.UpdateStats base writeOk statsFile' d' k' = some u' ∧
          u'.1.RankDictionaries base sortSlice C' visit' = some r') ∧
      r.1.Rank.get? e = some se ∧
      rankedBefore (dr.DictsDir ++ base d) (dr.DictsDir ++ e) r.2 := by
  refine ⟨fun dr' statsFile' d' k' C' visit' h => ?_, ?_⟩
  · obtain ⟨r', hr'⟩ := RankDictionaries_of_not_nil base sortSlice
      (⟨dr'.StatsFile, dr'.DictsDir, dr'.Rank.set (base d')
        (match dr'.Rank.get? (base d') with
         | none => k'
         | some stats => (stats + k') % 2 ^ 64)⟩ : DictRanking) C' visit'
      (GoMap.isNil_set _ _ _)
    exact ⟨_, r', UpdateStats_of_not_nil base writeOk dr' statsFile' d' k' h, hr'⟩
  have he' : u.1.Rank.get? e = some se := by
    rw [UpdateStats_rank base writeOk dr statsFile d k u hu, GoMap.get?_set_ne _ _ _ _ hne]
    exact he
  obtain ⟨hdisc, _, _, _⟩ := RankDictionaries_eq_some base sortSlice u.1 C visit r hr
  have h₁ := discover_get?_of_some base _ C _ hdisc _ _ hd
  have h₂ := discover_get?_of_some base _ C _ hdisc _ _ he'
  refine ⟨h₂, ?_⟩
  have := RankDictionaries_higher_first base sortSlice hs u.1 C visit r hr hv (base d) e sd se
    h₁ h₂ hlt
  rwa [UpdateStats_dictsDir base writeOk dr statsFile d k u hu] at this

/-- C10 (amended) at a concrete input: `UpdateStats("/opt/dico/b.dico", 7)` lifts `b.dico`
from 5 to 12, above `a.dico` at 10. -/
theorem UpdateStats_then_ranked_before_witness :
    ∃ u r, scenarioRanking.UpdateStats filepathBase true none "/opt/dico/b.dico" 7 = some u ∧
      u.1.RankDictionaries filepathBase insertionSort_func [] [("a.dico", 10),
        ("b.dico", 12)] = some r ∧
      r.1.Rank.get? "a.dico" = some 10 ∧
      rankedBefore ("" ++ filepathBase "/opt/dico/b.dico") ("" ++ "a.dico") r.2 :=
  ⟨(scenarioRanking.UpdateStats filepathBase true none "/opt/dico/b.dico" 7).get (by decide),
    (((scenarioRanking.UpdateStats filepathBase true none "/opt/dico/b.dico" 7).get
      (by decide)).1.RankDictionaries filepathBase insertionSort_func []
      [("a.dico", 10), ("b.dico", 12)]).get (by decide),
    (Option.some_get _).symm, (Option.some_get _).symm,
    (UpdateStats_then_ranked_before filepathBase insertionSort_func insertionSort_func_spec
      true scenarioRanking none [] [("a.dico", 10), ("b.dico", 12)] "/opt/dico/b.dico"
      "a.dico" 7 10 12 _ _ (Option.some_get _).symm (Option.some_get _).symm (by decide)
      (by decide) (by decide) (by decide) (by decide)).2⟩

/-! ### Facts used by the claims on arithmetic, failures and the engine -/

/-- When the size of the result store differs from the watermark, a write is made. -/
theorem exportFoundPasswords_writes_of_ne (sys : SysCalls) (cfg : Config) (files : Files)
    (size : Int) (hstat : sys.stat = some size) (hsize : size ≠ cfg.HashcatPotfileSize) :
    (exportFoundPasswords sys cfg files).writes ≠ [] := by
  unfold exportFoundPasswords
  simp only [hstat, hsize, if_false]
  split
  · simp
  · split
    · simp
    · split
      · simp
      · split
        · simp
        · split <;> simp

/-- The engine query of `exportFoundPasswords` is run exactly when the size read differs
from the watermark and, on Windows, the working directory could be read and changed; its
arguments are those of line 65. -/
theorem exportFoundPasswords_queries (sys : SysCalls) (cfg : Config) (files : Files)
    (size : Int) (hstat : sys.stat = some size) :
    ((exportFoundPasswords sys cfg files).queries ≠ [] ↔
        size ≠ cfg.HashcatPotfileSize ∧
          (sys.windows = true → sys.getwdOk = true ∧ sys.chdirOk = true)) ∧
      ((exportFoundPasswords sys cfg files).queries ≠ [] →
        (exportFoundPasswords sys cfg files).queries =
          [["--show", "--outfile-format=2", "-m", cfg.HashType, cfg.HashFile]]) := by
  unfold exportFoundPasswords
  simp only [hstat]
  by_cases hsize : size = cfg.HashcatPotfileSize
  · simp [hsize]
  · cases hw : sys.windows <;> cases hg : sys.getwdOk <;> cases hc : sys.chdirOk <;>
      simp only [hsize, if_false, Bool.false_and, Bool.true_and, Bool.not_true,
        Bool.not_false, Bool.false_eq_true, if_true] <;>
      first
        | (constructor <;> (simp; done))
        | (cases sys.output with
            | none => simp [hsize]
            | some rows =>
              simp only
              split
              · simp [hsize]
              · split <;> simp [hsize])

/-- The table `NewDictRanking` returns is empty when the stats file is absent or unreadable,
is not valid JSON, or is valid JSON other than an object. -/
theorem NewDictRanking_empty (cfg : Config) (read : StatsRead)
    (h : read = StatsRead.absent ∨ read = StatsRead.unreadable ∨
      read = StatsRead.content JsonDocument.malformed ∨
      read = StatsRead.content JsonDocument.null ∨
      read = StatsRead.content JsonDocument.notObject) :
    (NewDictRanking cfg read).Rank.entries = [] := by
  rcases h with h | h | h | h | h <;> subst h <;> rfl

/-- The stats file `Save` writes holds the table: a lookup in it is a lookup in the map. -/
theorem lookup_marshalRank (m : GoMap) (key : String) :
    List.lookup key (marshalRank m) = m.get? key := by
  have hperm : (marshalRank m).Perm m.entries := List.perm_insertionSort _ _
  have hnd : ((marshalRank m).map Prod.fst).Nodup :=
    (hperm.map Prod.fst).nodup_iff.2 m.nodupKeys
  apply Option.ext
  intro v
  show List.lookup key (marshalRank m) = some v ↔ m.get? key = some v
  rw [lookup_eq_some_iff_mem hnd, GoMap.get?_eq_some_iff, hperm.mem_iff]

/-- The stats file after `UpdateStats` when the write succeeds. -/
theorem UpdateStats_statsFile (base : String → String) (dr : DictRanking)
    (statsFile : Option (List (String × Nat))) (p : String) (k : Nat)
    (u : DictRanking × Option (List (String × Nat)))
    (hu : dr.UpdateStats base true statsFile p k = some u) :
    u.2 = some (marshalRank u.1.Rank) := by
  rw [UpdateStats_of_not_nil base true dr statsFile p k
    (UpdateStats_not_nil base true dr statsFile p k u hu)] at hu
  cases hu
  rfl

theorem commandLines_append (l₁ l₂ : List Event) :
    commandLines (l₁ ++ l₂) = commandLines l₁ ++ commandLines l₂ := by
  induction l₁ with
  | nil => rfl
  | cons e l ih => cases e <;> simp [commandLines, ih]

/-- No step of the rule loop of the knowledge loop lowers the count of an engine model. -/
theorem sweep_model {W : Type} (env : Env W) (U : Nat) (Inv : Campaign W → Prop)
    (count : Campaign W → Nat) (M : EngineModel env U Inv count) (dict : String)
    (rules : List String) (s : Campaign W) (hs : Inv s) :
    Inv (InvokeHashcatKnowledgeLoop.sweep env dict rules s) ∧
      count s ≤ count (InvokeHashcatKnowledgeLoop.sweep env dict rules s) := by
  induction rules generalizing s with
  | nil => exact ⟨hs, Nat.le_refl _⟩
  | cons rule rest ih =>
    obtain ⟨h₁, h₂⟩ := M.invoke s dict rule hs
    obtain ⟨h₃, h₄⟩ := ih _ h₁
    exact ⟨h₃, Nat.le_trans h₂ h₄⟩

/-- The number of kept rows of the demo result store is the number of credentials in it. -/
theorem demo_count (c : Nat) (hc : c ≤ 3) :
    (removeDuplicates (sortStrings ((["alice", "bob", "carol"].take c).filter keepRow))).length
      = c := by
  interval_cases c <;> decide

/-- The extraction over `DemoWorld` returns the number of recovered credentials and leaves
the campaign in an admitted state. -/
theorem demo_measure (outcome : RunOutcome) (s : Campaign DemoWorld) (hs : demoInv s) :
    demoInv (exportStep (demoEnv outcome) s).1 ∧
      (exportStep (demoEnv outcome) s).2 = demoCount s ∧
      demoCount (exportStep (demoEnv outcome) s).1 = demoCount s := by
  obtain ⟨h3, hle, hfound⟩ := hs
  by_cases hsize : Int.ofNat s.world.cracked = s.cfg.HashcatPotfileSize
  · have hskip := exportFoundPasswords_skip
      (sysCalls (Int.ofNat s.world.cracked)
        (some (["alice", "bob", "carol"].take s.world.cracked)) none) s.cfg s.files
      (by rw [← hsize]; rfl)
    have hstep : exportStep (demoEnv outcome) s =
        ({ s with events := s.events ++ [Event.measured s.cfg.HashcatFound] },
          s.cfg.HashcatFound) := by
      unfold exportStep
      show (_, _) = _
      simp only [demoEnv, hskip]
    rw [hstep]
    exact ⟨⟨h3, hle, hfound⟩, hfound hsize.symm, rfl⟩
  · have hsucc := exportFoundPasswords_success
      (sysCalls (Int.ofNat s.world.cracked)
        (some (["alice", "bob", "carol"].take s.world.cracked)) none) s.cfg s.files
      (Int.ofNat s.world.cracked) (["alice", "bob", "carol"].take s.world.cracked) rfl hsize
      (fun h => by cases h) rfl rfl rfl
    rw [demo_count _ h3] at hsucc
    have hcfg : (exportStep (demoEnv outcome) s).1.cfg =
        { s.cfg with HashcatPotfileSize := Int.ofNat s.world.cracked,
                     HashcatFound := s.world.cracked } := by
      unfold exportStep
      simp only [demoEnv, hsucc]
    have hret : (exportStep (demoEnv outcome) s).2 = s.world.cracked := by
      unfold exportStep
      simp only [demoEnv, hsucc]
    have hworld : (exportStep (demoEnv outcome) s).1.world = s.world := rfl
    refine ⟨⟨?_, ?_, ?_⟩, hret, ?_⟩
    · rw [hworld]
      exact h3
    · rw [hworld, hcfg]
    · intro _
      rw [hworld, hcfg]
    · show (exportStep (demoEnv outcome) s).1.world.cracked = s.world.cracked
      rw [hworld]

/-- A run of the engine over `DemoWorld` leaves the configuration as it was and recovers
one more credential, up to three. -/
theorem demo_invoke (outcome : RunOutcome) (extraArgs : List String)
    (s : Campaign DemoWorld) :
    (InvokeHashcat (demoEnv outcome) extraArgs s).1.cfg = s.cfg ∧
      (InvokeHashcat (demoEnv outcome) extraArgs s).1.world.cracked =
        min (s.world.cracked + 1) 3 := by
  unfold InvokeHashcat
  simp only [demoEnv, sysCalls, Bool.false_and, Bool.false_eq_true, if_false]
  split <;> exact ⟨rfl, rfl⟩

/-- The collaborators over `DemoWorld` form an engine model with at most three
credentials. -/
theorem demoEnv_model (outcome : RunOutcome) :
    EngineModel (demoEnv outcome) 3 demoInv demoCount := by
  constructor
  · intro s hs
    exact hs.1
  · intro s p hs
    exact ⟨hs, rfl⟩
  · intro s hs
    exact demo_measure outcome s hs
  · intro s dict rule hs
    obtain ⟨h3, hle, hfound⟩ := hs
    obtain ⟨hcfg, hworld⟩ := demo_invoke outcome
      (if rule ≠ "" then ["-a", "0", dict] ++ ["-r", rule] else ["-a", "0", dict]) s
    have hcfg' : (InvokeHashcatDictWithRule (demoEnv outcome) dict rule s).1.cfg = s.cfg :=
      hcfg
    have hworld' : (InvokeHashcatDictWithRule (demoEnv outcome) dict rule s).1.world.cracked =
        min (s.world.cracked + 1) 3 := hworld
    refine ⟨⟨?_, ?_, ?_⟩, ?_⟩
    · rw [hworld']
      exact Nat.min_le_right _ _
    · rw [hworld', hcfg']
      have : s.world.cracked ≤ min (s.world.cracked + 1) 3 := by omega
      exact le_trans hle (Int.ofNat_le.2 this)
    · intro heq
      rw [hworld', hcfg'] at heq ⊢
      have h1 : s.world.cracked ≤ min (s.world.cracked + 1) 3 := by omega
      have h2 : Int.ofNat (min (s.world.cracked + 1) 3) ≤ Int.ofNat s.world.cracked := by
        rw [← heq]
        exact hle
      have h3' : min (s.world.cracked + 1) 3 = s.world.cracked :=
        Nat.le_antisymm (Int.ofNat_le.1 h2) h1
      rw [h3'] at heq ⊢
      exact hfound heq
    · show s.world.cracked ≤
        (InvokeHashcatDictWithRule (demoEnv outcome) dict rule s).1.world.cracked
      rw [hworld']
      omega

/-- One call of `InvokeHashcatKnowledgeLoop`, with its recursive call. -/
theorem InvokeHashcatKnowledgeLoop_succ {W : Type} (env : Env W) (dict : String) (fuel : Nat)
    (s : Campaign W) :
    InvokeHashcatKnowledgeLoop env dict (fuel + 1) s =
      if (exportStep env (setPhase ("Knowledge phase " ++ env.base dict) s)).2 = 0 then
        some ((exportStep env (setPhase ("Knowledge phase " ++ env.base dict) s)).1, [])
      else if (exportStep env (InvokeHashcatKnowledgeLoop.sweep env dict
          (exportStep env (setPhase ("Knowledge phase " ++ env.base dict) s)).1.cfg.Rules
          (exportStep env (setPhase ("Knowledge phase " ++ env.base dict) s)).1)).2 >
          (exportStep env (setPhase ("Knowledge phase " ++ env.base dict) s)).2 then
        (InvokeHashcatKnowledgeLoop env dict fuel
          (exportStep env (InvokeHashcatKnowledgeLoop.sweep env dict
            (exportStep env (setPhase ("Knowledge phase " ++ env.base dict) s)).1.cfg.Rules
            (exportStep env (setPhase ("Knowledge phase " ++ env.base dict) s)).1)).1).map
          (fun r =>
            (r.1, ((exportStep env (setPhase ("Knowledge phase " ++ env.base dict) s)).2,
              (exportStep env (InvokeHashcatKnowledgeLoop.sweep env dict
                (exportStep env
                  (setPhase ("Knowledge phase " ++ env.base dict) s)).1.cfg.Rules
                (exportStep env
                  (setPhase ("Knowledge phase " ++ env.base dict) s)).1)).2) :: r.2))
      else
        some ((exportStep env (InvokeHashcatKnowledgeLoop.sweep env dict
            (exportStep env (setPhase ("Knowledge phase " ++ env.base dict) s)).1.cfg.Rules
            (exportStep env (setPhase ("Knowledge phase " ++ env.base dict) s)).1)).1,
          [((exportStep env (setPhase ("Knowledge phase " ++ env.base dict) s)).2,
            (exportStep env (InvokeHashcatKnowledgeLoop.sweep env dict
              (exportStep env (setPhase ("Knowledge phase " ++ env.base dict) s)).1.cfg.Rules
              (exportStep env
                (setPhase ("Knowledge phase " ++ env.base dict) s)).1)).2)]) := by
  simp only [InvokeHashcatKnowledgeLoop]
  split
  · rfl
  · split
    · cases InvokeHashcatKnowledgeLoop env dict fuel _ <;> rfl
    · rfl

/-- When the glob of phase 3 fails or finds nothing, the loop of `startHashcatAutomation`
ends there: the state is returned as it is and the identifiers after `3` are not looked
at. -/
theorem startHashcatAutomation_loop_phase3_without_dicts {W : Type} (env : Env W) (fuel : Nat)
    (rest : List String) (s : Campaign W)
    (h : env.glob (env.join s.cfg.DictsDir "*.dico") s.world = none ∨
      env.glob (env.join s.cfg.DictsDir "*.dico") s.world = some []) :
    startHashcatAutomation.loop env fuel ("3" :: rest) s = some s := by
  have hstep : startHashcatAutomation.step env fuel "3" s = some (Flow.stop s) := by
    unfold startHashcatAutomation.step
    rcases h with h | h
    · simp [h]
    · simp [h]
  simp only [startHashcatAutomation.loop, hstep]

/-! ## The claims on arithmetic, failures and the engine -/

/-- C11 (counterexample): the empty table receives `UpdateStats("a.dico", 0 - 5)`, the
`uint64` delta of an extraction count that fell from 5 to 0, and the entry becomes
`2 ^ 64 - 5`; `UpdateStats("a.dico", 10)` then leaves it at 5: the score decreased and is
not the integer sum. -/
theorem UpdateStats_wraps_around :
    wrappedRanking.map (fun dr => dr.Rank.get? "a.dico") =
        some (some 18446744073709551611) ∧
      wrappedRanking.bind (fun dr =>
        (dr.UpdateStats filepathBase true none "a.dico" 10).map
          (fun u => u.1.Rank.get? "a.dico")) = some (some 5) := by
  decide

/-- C11 (amended): for every table, path and delta such that the sum of the old score and
the delta fits in 64 bits, no score decreases in `UpdateStats`: the call returns, the
updated entry holds the exact integer sum of old score and delta, and every other entry
keeps its score. -/
theorem UpdateStats_never_decreases (base : String → String) (writeOk : Bool)
    (dr : DictRanking) (statsFile : Option (List (String × Nat))) (p : String) (k : Nat)
    (hfit : ∀ old, dr.Rank.get? (base p) = some old → old + k < 2 ^ 64)
    (key : String) (old : Nat) (hold : dr.Rank.get? key = some old) :
    ∃ u, dr.UpdateStats base writeOk statsFile p k = some u ∧
      ∃ new, u.1.Rank.get? key = some new ∧
        old ≤ new ∧ (key = base p → new = old + k) ∧ (key ≠ base p → new = old) := by
  refine ⟨_, UpdateStats_of_not_nil base writeOk dr statsFile p k
    (GoMap.isNil_of_get? dr.Rank key old hold), ?_⟩
  by_cases hkey : key = base p
  · subst hkey
    refine ⟨old + k, ?_, Nat.le_add_right _ _, fun _ => rfl, fun h => absurd rfl h⟩
    show (dr.Rank.set _ _).get? _ = _
    rw [GoMap.get?_set_self, hold]
    simp only [Nat.mod_eq_of_lt (hfit old hold)]
  · refine ⟨old, ?_, Nat.le_refl _, fun h => absurd h hkey, fun _ => rfl⟩
    show (dr.Rank.set _ _).get? _ = _
    rw [GoMap.get?_set_ne _ _ _ _ hkey]
    exact hold

/-- C11 (amended) at a concrete input: `UpdateStats("/opt/dico/b.dico", 3)` on
`a.dico: 10, b.dico: 5`. -/
theorem UpdateStats_never_decreases_witness :
    ∃ u, scenarioRanking.UpdateStats filepathBase true none "/opt/dico/b.dico" 3 = some u ∧
      ∃ new, u.1.Rank.get? "b.dico" = some new ∧
        5 ≤ new ∧ ("b.dico" = filepathBase "/opt/dico/b.dico" → new = 5 + 3) ∧
        ("b.dico" ≠ filepathBase "/opt/dico/b.dico" → new = 5) :=
  UpdateStats_never_decreases filepathBase true scenarioRanking none "/opt/dico/b.dico" 3
    (fun old h => by
      have h5 : scenarioRanking.Rank.get? (filepathBase "/opt/dico/b.dico") = some 5 := by
        decide
      rw [h5] at h
      cases h
      decide)
    "b.dico" 5 (by decide)

/-- C17: `InvokeHashcat` returns a nil error exactly when the engine process was run (on
Windows: the working directory could be read and changed) and ended with exit status 0 or
1; a failure to start it and every other exit status give an error. -/
theorem InvokeHashcat_error_iff {W : Type} (env : Env W) (extraArgs : List String)
    (s : Campaign W) :
    (InvokeHashcat env extraArgs s).2 = false ↔
      (((env.sys s.files s.world).windows = true →
          (env.sys s.files s.world).getwdOk = true ∧
            (env.sys s.files s.world).chdirOk = true) ∧
        ((env.run s.cfg.HashcatBin
            (InvokeHashcat.args s.cfg (env.randText s.world) extraArgs) s.files s.world).2 =
            RunOutcome.exited 0 ∨
          (env.run s.cfg.HashcatBin
            (InvokeHashcat.args s.cfg (env.randText s.world) extraArgs) s.files s.world).2 =
            RunOutcome.exited 1)) := by
  unfold InvokeHashcat
  cases hw : (env.sys s.files s.world).windows <;>
    cases hg : (env.sys s.files s.world).getwdOk <;>
    cases hc : (env.sys s.files s.world).chdirOk <;>
    simp only [hw, hg, hc, Bool.false_and, Bool.true_and, Bool.not_true, Bool.not_false,
      Bool.false_eq_true, if_false, if_true, false_implies, true_and, and_self, and_false,
      and_true, true_implies, false_and, Bool.true_eq_false, iff_self] <;>
    (split <;> simp_all)

/-- C17 at concrete inputs: exit status 1 is a success, exit status 255 and a failure to
start are errors. -/
theorem InvokeHashcat_error_iff_witness :
    (InvokeHashcat (demoEnv (RunOutcome.exited 1)) ["-a", "3"] (demoCampaign "0" 1 [])).2 =
        false ∧
      (InvokeHashcat (demoEnv (RunOutcome.exited 255)) ["-a", "3"]
        (demoCampaign "0" 1 [])).2 = true ∧
      (InvokeHashcat (demoEnv RunOutcome.startFailure) ["-a", "3"]
        (demoCampaign "0" 1 [])).2 = true :=
  ⟨(InvokeHashcat_error_iff (demoEnv (RunOutcome.exited 1)) ["-a", "3"]
      (demoCampaign "0" 1 [])).2 ⟨by decide, Or.inr rfl⟩,
    by decide, by decide⟩

/-- C19 (evaluation at the failing input): on the stats file
`{"a.dico": 10, "b.dico": "x"}` the call of `json.Unmarshal` returns an error, which
`NewDictRanking` logs as "starting with empty stats", and the table returned holds `a.dico`
with score 10 and `b.dico` with score 0. -/
theorem NewDictRanking_keeps_entries_of_unparseable_file :
    (jsonUnmarshal
        (JsonDocument.object [("a.dico", JsonValue.integer 10), ("b.dico", JsonValue.other)])
        GoMap.empty).2 = true ∧
      (NewDictRanking startConfig brokenStats).Rank.get? "a.dico" = some 10 ∧
      (NewDictRanking startConfig brokenStats).Rank.entries =
        [("a.dico", 10), ("b.dico", 0)] := by
  decide

/-- C20 (counterexample): on Windows, when the working directory cannot be read, a call at
store size 20 against the watermark 0 advances the watermark to 20 and purges the custom
dictionary, and returns 0 there: the size differs from the watermark, yet no engine query is
run and neither dictionary is written from a query output. -/
theorem exportFoundPasswords_size_change_without_extraction :
    (20 : Int) ≠ startConfig.HashcatPotfileSize ∧
      (exportFoundPasswords
        { sysCalls 20 (some ["bob"]) (some ["alice"]) with windows := true, getwdOk := false }
        startConfig ⟨some "old", some "alice"⟩) =
        { cfg := { startConfig with HashcatPotfileSize := 20 }
          files := ⟨some "", some "alice"⟩
          ret := 0
          writes := [(FileId.customDict, "")]
          queries := [] } := by
  decide

/-- C20 (amended): after a call of `exportFoundPasswords` that read the size of the result
store, the watermark `cfg.HashcatPotfileSize` is that size, whether the extraction was
skipped or made and whether the store grew or shrank.  The engine query is run exactly when
the size differs from the watermark the call found and, on Windows, the working directory
could be read and changed; its arguments are `--show --outfile-format=2 -m` hash type and
hash file.  When the size equals the watermark, nothing is queried or written and the last
count is returned; when the query is run and it and both writes succeed, both dictionaries
are rewritten from the query output and the number of credentials is stored and returned.
So a following call that reads the size `size₂` runs the query exactly when `size₂` differs
from `size` (and the working directory steps succeed). -/
theorem exportFoundPasswords_watermark_tracks_size (sys : SysCalls) (cfg : Config)
    (files : Files) (size : Int) (hstat : sys.stat = some size) :
    (exportFoundPasswords sys cfg files).cfg.HashcatPotfileSize = size ∧
      ((exportFoundPasswords sys cfg files).queries ≠ [] ↔
        size ≠ cfg.HashcatPotfileSize ∧
          (sys.windows = true → sys.getwdOk = true ∧ sys.chdirOk = true)) ∧
      ((exportFoundPasswords sys cfg files).queries ≠ [] →
        (exportFoundPasswords sys cfg files).queries =
          [["--show", "--outfile-format=2", "-m", cfg.HashType, cfg.HashFile]]) ∧
      (size = cfg.HashcatPotfileSize →
        exportFoundPasswords sys cfg files = ⟨cfg, files, cfg.HashcatFound, [], []⟩) ∧
      (∀ rows, (exportFoundPasswords sys cfg files).queries ≠ [] → sys.output = some rows →
        sys.writeCustomOk = true → sys.writeHistoricalOk = true →
        (exportFoundPasswords sys cfg files).files.customDict =
            some (String.intercalate "\n"
              (removeDuplicates (sortStrings (rows.filter keepRow)))) ∧
          (exportFoundPasswords sys cfg files).files.historicalDict =
            some (String.intercalate "\n"
              (updateHistoricalDict.uniquePasswords sys.existing
                (removeDuplicates (sortStrings (rows.filter keepRow))))) ∧
          (exportFoundPasswords sys cfg files).ret =
            (removeDuplicates (sortStrings (rows.filter keepRow))).length ∧
          (exportFoundPasswords sys cfg files).cfg.HashcatFound =
            (removeDuplicates (sortStrings (rows.filter keepRow))).length) ∧
      ∀ (sys₂ : SysCalls) (size₂ : Int), sys₂.stat = some size₂ →
        ((exportFoundPasswords sys₂ (exportFoundPasswords sys cfg files).cfg
            (exportFoundPasswords sys cfg files).files).queries ≠ [] ↔
          size₂ ≠ size ∧
            (sys₂.windows = true → sys₂.getwdOk = true ∧ sys₂.chdirOk = true)) := by
  have hq := exportFoundPasswords_queries sys cfg files size hstat
  have hw := exportFoundPasswords_watermark sys cfg files size hstat
  refine ⟨hw, hq.1, hq.2, fun hsize => ?_, fun rows hrun hout hwc hwh => ?_,
    fun sys₂ size₂ h₂ => ?_⟩
  · exact exportFoundPasswords_skip sys cfg files (by rw [hstat, hsize])
  · obtain ⟨hsize, hwin⟩ := hq.1.1 hrun
    rw [exportFoundPasswords_success sys cfg files size rows hstat hsize hwin hout hwc hwh]
    exact ⟨rfl, rfl, rfl, rfl⟩
  · have := (exportFoundPasswords_queries sys₂ (exportFoundPasswords sys cfg files).cfg
      (exportFoundPasswords sys cfg files).files size₂ h₂).1
    rw [hw] at this
    exact this

/-- C20 (amended) at a concrete input: the store shrank from the watermark 10 to 4 bytes;
the query is run and the custom dictionary rewritten from its output. -/
theorem exportFoundPasswords_watermark_tracks_size_witness :
    (exportFoundPasswords (sysCalls 4 (some ["bob"]) none) firstExtraction.cfg
        firstExtraction.files).cfg.HashcatPotfileSize = 4 ∧
      (exportFoundPasswords (sysCalls 4 (some ["bob"]) none) firstExtraction.cfg
        firstExtraction.files).queries ≠ [] ∧
      (exportFoundPasswords (sysCalls 4 (some ["bob"]) none) firstExtraction.cfg
        firstExtraction.files).files.customDict = some "bob" ∧
      (exportFoundPasswords (sysCalls 4 (some ["bob"]) none) firstExtraction.cfg
        firstExtraction.files).ret = 1 :=
  ⟨(exportFoundPasswords_watermark_tracks_size (sysCalls 4 (some ["bob"]) none)
      firstExtraction.cfg firstExtraction.files 4 rfl).1,
    (exportFoundPasswords_watermark_tracks_size (sysCalls 4 (some ["bob"]) none)
      firstExtraction.cfg firstExtraction.files 4 rfl).2.1.2 ⟨by decide, by decide⟩,
    by decide, by decide⟩

/-- C12 (counterexample): in the engine model over `DemoWorld`, whose count never decreases
and is at most 3, a knowledge loop started with no credential recovered ends without a single
rule sweep: no round found a credential, and the sweeps are 0, not 0 plus one. -/
theorem InvokeHashcatKnowledgeLoop_without_sweep :
    EngineModel (demoEnv (RunOutcome.exited 0)) 3 demoInv demoCount ∧
      demoInv (demoCampaign "0" 0 []) ∧
      (InvokeHashcatKnowledgeLoop (demoEnv (RunOutcome.exited 0)) "/tmp/hashes.dict" 4
        (demoCampaign "0" 0 [])).map (fun r => r.2) = some [] :=
  ⟨demoEnv_model _, ⟨by decide, by decide, by decide⟩, by decide⟩

/-- C12 (amended): for every engine model in which the cumulative credential count is
non-decreasing and bounded by `U`, and for every rule set, `InvokeHashcatKnowledgeLoop`
terminates: every `fuel` of at least `U + 1` minus the count at the start gives a result.
When the count at the start is not zero, the number of rule sweeps is the number of sweeps
that raised the count, plus one; when it is zero, no sweep is made. -/
theorem InvokeHashcatKnowledgeLoop_terminates {W : Type} (env : Env W) (U : Nat)
    (Inv : Campaign W → Prop) (count : Campaign W → Nat) (M : EngineModel env U Inv count)
    (dict : String) (s : Campaign W) (hs : Inv s) (fuel : Nat)
    (hfuel : U + 1 ≤ fuel + count s) :
    ∃ r, InvokeHashcatKnowledgeLoop env dict fuel s = some r ∧
      (count s = 0 → r.2 = []) ∧
      (count s ≠ 0 →
        r.2.length = (r.2.filter (fun round => decide (round.1 < round.2))).length + 1) := by
  induction fuel generalizing s with
  | zero =>
    have := M.bounded s hs
    omega
  | succ n ih =>
    rw [InvokeHashcatKnowledgeLoop_succ]
    obtain ⟨hp, hpc⟩ := M.phase s ("Knowledge phase " ++ env.base dict) hs
    obtain ⟨hm, hmr, hmc⟩ := M.measure _ hp
    rw [hpc] at hmr hmc
    generalize exportStep env (setPhase ("Knowledge phase " ++ env.base dict) s) = m₁
      at hm hmr hmc ⊢
    by_cases hzero : count s = 0
    · rw [if_pos (hmr.trans hzero)]
      exact ⟨_, rfl, fun _ => rfl, fun h => absurd hzero h⟩
    · rw [if_neg (by rw [hmr]; exact hzero)]
      obtain ⟨hsw, hswc⟩ := sweep_model env U Inv count M dict m₁.1.cfg.Rules m₁.1 hm
      obtain ⟨hm₂, hmr₂, hmc₂⟩ := M.measure _ hsw
      rw [← hmr₂] at hmc₂ hswc
      generalize exportStep env
        (InvokeHashcatKnowledgeLoop.sweep env dict m₁.1.cfg.Rules m₁.1) = m₂
        at hm₂ hmc₂ hswc ⊢
      by_cases hgrow : m₂.2 > m₁.2
      · rw [if_pos hgrow]
        have hlt : count s < m₂.2 := by
          rw [← hmr]
          exact hgrow
        obtain ⟨r, hr, _, hr₂⟩ := ih m₂.1 hm₂ (by rw [hmc₂]; omega)
        rw [hr]
        refine ⟨_, rfl, fun h => absurd h hzero, fun _ => ?_⟩
        have hpos : count m₂.1 ≠ 0 := by
          rw [hmc₂]
          omega
        have hdec : decide (m₁.2 < m₂.2) = true := by simpa using hgrow
        simp only [Option.map_some', List.length_cons, List.filter_cons, hdec, if_true,
          hr₂ hpos]
      · rw [if_neg hgrow]
        refine ⟨_, rfl, fun h => absurd h hzero, fun _ => ?_⟩
        have hdec : decide (m₁.2 < m₂.2) = false := by simpa using hgrow
        simp only [List.length_cons, List.length_nil, List.filter_cons, hdec,
          List.filter_nil]
        rfl

/-- C12 (amended) at a concrete input: over `DemoWorld` with one credential recovered at
the start, the loop makes three sweeps, of which the first two raise the count. -/
theorem InvokeHashcatKnowledgeLoop_terminates_witness :
    (∃ r, InvokeHashcatKnowledgeLoop (demoEnv (RunOutcome.exited 0)) "/tmp/hashes.dict" 5
        (demoCampaign "0" 1 []) = some r ∧
      (demoCount (demoCampaign "0" 1 []) = 0 → r.2 = []) ∧
      (demoCount (demoCampaign "0" 1 []) ≠ 0 →
        r.2.length = (r.2.filter (fun round => decide (round.1 < round.2))).length + 1)) ∧
      (InvokeHashcatKnowledgeLoop (demoEnv (RunOutcome.exited 0)) "/tmp/hashes.dict" 5
        (demoCampaign "0" 1 [])).map (fun r => r.2) = some [(1, 2), (2, 3), (3, 3)] :=
  ⟨InvokeHashcatKnowledgeLoop_terminates (demoEnv (RunOutcome.exited 0)) 3 demoInv demoCount
      (demoEnv_model _) "/tmp/hashes.dict" (demoCampaign "0" 1 [])
      ⟨by decide, by decide, by decide⟩ 5 (by decide),
    by decide⟩

/-- C13: when the count measured at the start of `InvokeHashcatKnowledgeLoop` is zero, the
loop returns at once, whatever the fuel: no sweep is made and the call does not recurse, the
engine is run for no rule, and the outside world is as before. -/
theorem InvokeHashcatKnowledgeLoop_zero_count {W : Type} (env : Env W) (dict : String)
    (fuel : Nat) (s : Campaign W)
    (h : (exportStep env (setPhase ("Knowledge phase " ++ env.base dict) s)).2 = 0) :
    InvokeHashcatKnowledgeLoop env dict (fuel + 1) s =
        some ((exportStep env (setPhase ("Knowledge phase " ++ env.base dict) s)).1, []) ∧
      commandLines (exportStep env (setPhase ("Knowledge phase " ++ env.base dict) s)).1.events
        = commandLines s.events ∧
      (exportStep env (setPhase ("Knowledge phase " ++ env.base dict) s)).1.world = s.world := by
  refine ⟨?_, ?_, rfl⟩
  · simp only [InvokeHashcatKnowledgeLoop, h, if_true]
  · show commandLines (s.events ++ [Event.measured _]) = _
    rw [commandLines_append]
    simp [commandLines]

/-- C13 at a concrete input: over `DemoWorld` with no credential recovered, the loop ends
after the measurement alone. -/
theorem InvokeHashcatKnowledgeLoop_zero_count_witness :
    (InvokeHashcatKnowledgeLoop (demoEnv (RunOutcome.exited 0)) "/tmp/hashes.dict" (0 + 1)
        (demoCampaign "0" 0 [])).map (fun r => (r.1.events, r.2)) =
      some ([Event.measured 0], []) := by
  rw [(InvokeHashcatKnowledgeLoop_zero_count (demoEnv (RunOutcome.exited 0))
    "/tmp/hashes.dict" 0 (demoCampaign "0" 0 []) (by decide)).1]
  decide

/-- C18 (counterexample): with no stats file, `RankDictionaries` on the candidate
`/opt/dico/a.dico` enters `a.dico` with score 0 in the table in memory and writes nothing:
there is still no stats file. -/
theorem RankDictionaries_does_not_persist :
    (rankStep (demoEnv (RunOutcome.exited 0)) ["/opt/dico/a.dico"]
        (newRankingStep (demoEnv (RunOutcome.exited 0))
          (demoCampaign "0" 1 ["/opt/dico/a.dico"]))).1.statsFile = none ∧
      (rankStep (demoEnv (RunOutcome.exited 0)) ["/opt/dico/a.dico"]
        (newRankingStep (demoEnv (RunOutcome.exited 0))
          (demoCampaign "0" 1 ["/opt/dico/a.dico"]))).1.ranking.map
        (fun dr => dr.Rank.entries) = some [("a.dico", 0)] := by
  decide

/-- C18 (amended): a call of `UpdateStats` on a table that is not the nil map returns, and
after a call of `UpdateStats` that returns, provided the write succeeds, the stats file
holds the table in memory: every key has in the file the score it has in the
table.  `RankDictionaries` writes no file, so a dictionary it enters reaches the stats file
with the next `UpdateStats`. -/
theorem UpdateStats_persists_table (base : String → String) (writeOk : Bool)
    (hw : writeOk = true) (dr : DictRanking) (statsFile : Option (List (String × Nat)))
    (p : String) (k : Nat) (u : DictRanking × Option (List (String × Nat)))
    (hu : dr.UpdateStats base writeOk statsFile p k = some u) :
    (∀ (dr' : DictRanking) (statsFile' : Option (List (String × Nat))) (p' : String)
        (k' : Nat), dr'.Rank.isNil = false →
        ∃ u', dr'.UpdateStats base writeOk statsFile' p' k' = some u') ∧
      u.2 = some (marshalRank u.1.Rank) ∧
      (∀ key, List.lookup key (marshalRank u.1.Rank) = u.1.Rank.get? key) ∧
      ∀ (W : Type) (env : Env W) (dicts : List String) (s : Campaign W),
        (rankStep env dicts s).1.statsFile = s.statsFile := by
  subst hw
  refine ⟨fun dr' statsFile' p' k' h =>
      ⟨_, UpdateStats_of_not_nil base true dr' statsFile' p' k' h⟩,
    UpdateStats_statsFile base dr statsFile p k u hu, fun key => lookup_marshalRank _ key,
    fun W env dicts s => ?_⟩
  unfold rankStep
  cases s.ranking with
  | none => rfl
  | some dr' =>
    simp only
    cases DictRanking.RankDictionaries.discover env.base dr'.Rank dicts with
    | none => rfl
    | some table =>
      simp only
      cases dr'.RankDictionaries env.base env.sortSlice dicts (env.visit table s.world) <;>
        rfl

/-- C18 (amended) at a concrete input: after the ranking of `/opt/dico/a.dico` on the empty
table, `UpdateStats("/opt/dico/a.dico", 2)` writes the stats file `a.dico: 2`. -/
theorem UpdateStats_persists_table_witness :
    ∃ u, freshRanking.UpdateStats filepathBase true none "/opt/dico/a.dico" 2 = some u ∧
      u.2 = some (marshalRank u.1.Rank) ∧ u.2 = some [("a.dico", 2)] := by
  have hu : freshRanking.UpdateStats filepathBase true none "/opt/dico/a.dico" 2 =
      some ((freshRanking.UpdateStats filepathBase true none "/opt/dico/a.dico" 2).get
        (by decide)) := (Option.some_get _).symm
  exact ⟨_, hu,
    (UpdateStats_persists_table filepathBase true rfl freshRanking none "/opt/dico/a.dico"
      2 _ hu).2.1,
    by decide⟩

/-- C14 (evaluation at the failing input): every confirmation is answered with yes.  With
the hash type `0`, an empty input and no `.dico` file in the dictionaries directory, the
default ordering `1,2,3,4,5,6,7` enters the phases 1 and 2 only: phase 3 finds no
dictionary and `startHashcatAutomation` returns.  With one dictionary all seven phases are
entered in order, with the hash type `1000` the LM phase comes first, and the ordering
`5,4,5` enters 5, 4, 5. -/
theorem startHashcatAutomation_default_order_cut_short :
    (startHashcatAutomation (demoEnv (RunOutcome.exited 0)) "" 5
        (demoCampaign "0" 1 [])).map (fun s => phasesEntered s.events) = some ["1", "2"] ∧
      (startHashcatAutomation (demoEnv (RunOutcome.exited 0)) "" 5
        (demoCampaign "0" 1 ["/opt/dico/a.dico"])).map (fun s => phasesEntered s.events) =
        some ["1", "2", "3", "4", "5", "6", "7"] ∧
      (startHashcatAutomation (demoEnv (RunOutcome.exited 0)) "" 5
        (demoCampaign "1000" 1 ["/opt/dico/a.dico"])).map
        (fun s => phasesEntered s.events) =
        some ["LM", "1", "2", "3", "4", "5", "6", "7"] ∧
      (startHashcatAutomation (demoEnv (RunOutcome.exited 0)) "5,4,5" 5
        (demoCampaign "0" 1 [])).map (fun s => phasesEntered s.events) =
        some ["5", "4", "5"] := by
  decide

/-- C15 (evaluation at the failing input): every confirmation is answered with yes and the
dictionaries directory holds no `.dico` file.  The ordering `3,4` asks no question and
enters no phase, and the ordering `7,4` stops in phase 7: phase 4 is not offered.  When
every run of the engine fails with exit status 255, the ordering `4,5` still offers and
enters both phases. -/
theorem startHashcatAutomation_returns_on_empty_glob :
    (startHashcatAutomation (demoEnv (RunOutcome.exited 0)) "3,4" 5
        (demoCampaign "0" 1 [])).map
        (fun s => (questionsAsked s.events, phasesEntered s.events)) = some ([], []) ∧
      (startHashcatAutomation (demoEnv (RunOutcome.exited 0)) "7,4" 5
        (demoCampaign "0" 1 [])).map
        (fun s => (questionsAsked s.events, phasesEntered s.events)) =
        some (["Rules stacking with best64 rule on all dico"], ["7"]) ∧
      (startHashcatAutomation (demoEnv (RunOutcome.exited 255)) "4,5" 5
        (demoCampaign "0" 1 [])).map
        (fun s => (questionsAsked s.events, phasesEntered s.events)) =
        some (["Brute force password with len=8 with automask",
          "Brute force password with len=8"], ["4", "5"]) := by
  decide

/-! ### Facts used by the claims on the sweep, the ranking keys and the command line -/

/-- The `uint64` difference is the integer difference when that is not negative. -/
theorem uint64Sub_of_le (a b : Nat) (hba : b ≤ a) (ha : a < 2 ^ 64) : uint64Sub a b = a - b := by
  unfold uint64Sub
  omega

/-- The `uint64` difference wraps around when the integer difference is negative. -/
theorem uint64Sub_of_lt (a b : Nat) (hab : a < b) (hb : b < 2 ^ 64) :
    uint64Sub a b = 2 ^ 64 - (b - a) := by
  unfold uint64Sub
  omega

/-- On a root that is empty or ends with the separator, the concatenation of root and a
file name (not empty, no separator in it) has that name as its base name. -/
theorem filepathBase_append (root k : String)
    (hroot : root = "" ∨ root.data.getLast? = some '/') (hk : k ≠ "")
    (hslash : '/' ∉ k.data) : filepathBase (root ++ k) = k := by
  have hdata : k.data ≠ [] := fun h => hk (String.ext h)
  have hne : root ++ k ≠ "" := by
    intro h
    have := congrArg String.data h
    rw [String.data_append] at this
    exact hdata (List.append_eq_nil.1 this).2
  have hall : ∀ c ∈ k.data.reverse, (c != '/') = true := by
    intro c hc
    have hc' : c ∈ k.data := List.mem_reverse.1 hc
    simp only [bne_iff_ne, ne_eq]
    intro h
    exact hslash (h ▸ hc')
  have hdrop : List.dropWhile (fun c => c == '/') (k.data.reverse ++ root.data.reverse) =
      k.data.reverse ++ root.data.reverse := by
    cases hrev : k.data.reverse with
    | nil => exact absurd (List.reverse_eq_nil_iff.1 hrev) hdata
    | cons x xs =>
      have hx : (x != '/') = true := hall x (by rw [hrev]; exact List.mem_cons_self _ _)
      have hx' : ¬ ((x == '/') = true) := by
        simpa [bne_iff_ne] using hx
      rw [List.cons_append]
      exact List.dropWhile_cons_of_neg (p := fun c => c == '/') hx'
  have htake : List.takeWhile (fun c => c != '/') root.data.reverse = [] := by
    rcases hroot with h | h
    · rw [h]
      rfl
    · obtain ⟨ys, hys⟩ := List.getLast?_eq_some_iff.1 h
      rw [hys, List.reverse_append]
      rfl
  unfold filepathBase
  rw [if_neg hne]
  simp only [String.data_append, List.reverse_append, hdrop, List.reverse_reverse,
    List.takeWhile_append_of_pos hall, htake, List.append_nil]
  rw [if_neg hdata]

/-- An assignment to a key of the map leaves the keys as they are. -/
theorem GoMap.set_keys_of_mem (m : GoMap) (k : String) (v : Nat)
    (h : k ∈ m.entries.map Prod.fst) :
    (m.set k v).entries.map Prod.fst = m.entries.map Prod.fst := by
  unfold GoMap.set
  rw [dif_pos h]
  show (m.entries.map (fun e => if e.1 = k then (k, v) else e)).map Prod.fst = _
  rw [List.map_map]
  apply List.map_congr_left
  intro e _
  by_cases he : e.1 = k <;> simp [he]

/-- A key with a value is a key of the map. -/
theorem GoMap.mem_keys_of_get? (m : GoMap) (k : String) (v : Nat) (h : m.get? k = some v) :
    k ∈ m.entries.map Prod.fst :=
  List.mem_map.2 ⟨(k, v), (GoMap.get?_eq_some_iff m k v).1 h, rfl⟩

/-- The extraction leaves the hash type, the hash file and the rules of the configuration
as they are. -/
theorem exportFoundPasswords_cfg_frame (sys : SysCalls) (cfg : Config) (files : Files) :
    (exportFoundPasswords sys cfg files).cfg.HashType = cfg.HashType ∧
      (exportFoundPasswords sys cfg files).cfg.HashFile = cfg.HashFile ∧
      (exportFoundPasswords sys cfg files).cfg.Rules = cfg.Rules := by
  unfold exportFoundPasswords
  cases sys.stat with
  | none => exact ⟨rfl, rfl, rfl⟩
  | some size =>
    simp only
    split
    · exact ⟨rfl, rfl, rfl⟩
    · split
      · exact ⟨rfl, rfl, rfl⟩
      · split
        · exact ⟨rfl, rfl, rfl⟩
        · cases sys.output with
          | none => exact ⟨rfl, rfl, rfl⟩
          | some rows =>
            simp only
            split
            · exact ⟨rfl, rfl, rfl⟩
            · split <;> exact ⟨rfl, rfl, rfl⟩

/-- What a call of `InvokeHashcat` adds to the steps of a campaign: one run of the engine
with the command line of `InvokeHashcat.args`, whatever its outcome, unless the working
directory cannot be read or changed on Windows, in which case the engine is not run.  The
configuration is left as it is. -/
theorem InvokeHashcat_events {W : Type} (env : Env W) (extraArgs : List String)
    (s : Campaign W) :
    (InvokeHashcat env extraArgs s).1.cfg = s.cfg ∧
      (((env.sys s.files s.world).windows = true →
          (env.sys s.files s.world).getwdOk = true ∧
            (env.sys s.files s.world).chdirOk = true) →
        ∃ outcome, (InvokeHashcat env extraArgs s).1.events = s.events ++
          [Event.invoked (InvokeHashcat.args s.cfg (env.randText s.world) extraArgs)
            outcome]) ∧
      (¬ ((env.sys s.files s.world).windows = true →
          (env.sys s.files s.world).getwdOk = true ∧
            (env.sys s.files s.world).chdirOk = true) →
        (InvokeHashcat env extraArgs s).1.events = s.events) := by
  unfold InvokeHashcat
  cases hw : (env.sys s.files s.world).windows <;>
    cases hg : (env.sys s.files s.world).getwdOk <;>
    cases hc : (env.sys s.files s.world).chdirOk <;>
    simp only [hw, hg, hc, Bool.false_and, Bool.true_and, Bool.not_true, Bool.not_false,
      Bool.false_eq_true, if_false, if_true] <;>
    refine ⟨?_, ?_, ?_⟩ <;>
    first
      | trivial
      | rfl
      | (split <;> rfl)
      | (intro _; split <;> exact ⟨_, rfl⟩)
      | (intro h; exfalso; simp_all)

/-- The steps the rule loop of the knowledge loop adds: for the rules of a sublist `tried`
of `rules`, in order, one run of the engine each, with the dictionary and that rule on the
command line, whatever the outcome of the runs before; nothing else is added, and the
configuration is left as it is.  The rules left out are those at which the working
directory could not be read or changed on Windows; when that does not happen, every rule is
tried. -/
theorem sweep_events {W : Type} (env : Env W) (dict : String) (rules : List String)
    (s : Campaign W) :
    ∃ (round : List Event) (tried : List String),
      (InvokeHashcatKnowledgeLoop.sweep env dict rules s).events = s.events ++ round ∧
      (InvokeHashcatKnowledgeLoop.sweep env dict rules s).cfg = s.cfg ∧
      tried.Sublist rules ∧
      List.Forall₂ (fun rule e => ∃ session outcome, e = Event.invoked
        (["--session=" ++ ("Session_" ++ session), "-O", "--force", "-w", "4", "-m",
          s.cfg.HashType, s.cfg.HashFile, "-a", "0", dict] ++
          (if rule = "" then [] else ["-r", rule])) outcome) tried round ∧
      ((∀ files w, (env.sys files w).windows = true →
          (env.sys files w).getwdOk = true ∧ (env.sys files w).chdirOk = true) →
        tried = rules) := by
  induction rules generalizing s with
  | nil => exact ⟨[], [], (List.append_nil _).symm, rfl, List.Sublist.refl _, List.Forall₂.nil,
      fun _ => rfl⟩
  | cons rule rest ih =>
    obtain ⟨hcfg, hrun, hskip⟩ := InvokeHashcat_events env
      (if rule ≠ "" then ["-a", "0", dict] ++ ["-r", rule] else ["-a", "0", dict]) s
    have hstep : InvokeHashcatKnowledgeLoop.sweep env dict (rule :: rest) s =
        InvokeHashcatKnowledgeLoop.sweep env dict rest
          (InvokeHashcat env
            (if rule ≠ "" then ["-a", "0", dict] ++ ["-r", rule] else ["-a", "0", dict])
            s).1 := rfl
    have hline : InvokeHashcat.args s.cfg (env.randText s.world)
        (if rule ≠ "" then ["-a", "0", dict] ++ ["-r", rule] else ["-a", "0", dict]) =
        ["--session=" ++ ("Session_" ++ env.randText s.world), "-O", "--force", "-w", "4",
          "-m", s.cfg.HashType, s.cfg.HashFile, "-a", "0", dict] ++
          (if rule = "" then [] else ["-r", rule]) := by
      by_cases hr : rule = "" <;> simp [InvokeHashcat.args, hr]
    obtain ⟨round, tried, hev, hc, hsub, hall, hfull⟩ := ih
      (InvokeHashcat env
        (if rule ≠ "" then ["-a", "0", dict] ++ ["-r", rule] else ["-a", "0", dict]) s).1
    rw [hcfg] at hc hall
    by_cases hwd : (env.sys s.files s.world).windows = true →
        (env.sys s.files s.world).getwdOk = true ∧ (env.sys s.files s.world).chdirOk = true
    · obtain ⟨outcome, hout⟩ := hrun hwd
      rw [hline] at hout
      refine ⟨_ :: round, rule :: tried, ?_, ?_, hsub.cons₂ rule,
        List.Forall₂.cons ⟨env.randText s.world, outcome, rfl⟩ hall, fun h => ?_⟩
      · rw [hstep, hev, hout, List.append_assoc]
        rfl
      · rw [hstep, hc]
      · rw [hfull h]
    · refine ⟨round, tried, ?_, ?_, hsub.cons rule, hall, fun h => absurd (h _ _) hwd⟩
      · rw [hstep, hev, hskip hwd]
      · rw [hstep, hc]

/-! ## The claims on the sweep, the ranking keys and the command line -/

/-- C21 (evaluation at the failing input): in phase 3 over `flakyEnv`, with one credential
recovered at the start, the dictionary `/opt/dico/a.dico` and one rule, the count measured
before the rule-free pass is 1 and the extraction after it fails and returns 0: the delta
passed to `UpdateStats` is the `uint64` difference `0 - 1`, which is `2 ^ 64 - 1`, not a
difference of the two counts as integers.  The pass with the rule then measures 3 and passes
`3 - 0`.  In general the `uint64` difference is the integer difference exactly when the
count did not fall, and wraps around when it fell. -/
theorem startHashcatAutomation_delta_wraps_after_failed_extraction :
    (startHashcatAutomation flakyEnv "3" 5 (demoCampaign "0" 1 ["/opt/dico/a.dico"])).map
        (fun s => (countsMeasured s.events, (statsUpdates s.events).map Prod.snd)) =
        some ([1, 0, 3, 3, 3], [18446744073709551615, 3]) ∧
      uint64Sub 0 1 = 2 ^ 64 - 1 ∧
      (∀ newCount initialCount, initialCount ≤ newCount → newCount < 2 ^ 64 →
        uint64Sub newCount initialCount = newCount - initialCount) ∧
      (∀ newCount initialCount, newCount < initialCount → initialCount < 2 ^ 64 →
        uint64Sub newCount initialCount = 2 ^ 64 - (initialCount - newCount)) :=
  ⟨by decide, by decide, uint64Sub_of_le, uint64Sub_of_lt⟩

/-- C22 (evaluation at the failing input): with the ranking directory root `/opt/dico` and
the candidate `/opt/dico/a.dico`, `RankDictionaries` enters the key `a.dico` and returns
the path `/opt/dicoa.dico`, whose base name is `dicoa.dico`; `UpdateStats` on the returned
path with delta 3 leaves `a.dico` at 0 and creates the key `dicoa.dico`.  When the root is
empty or ends with the separator and the key is a file name (not empty, no separator in
it), the returned path has the key as its base name, and `UpdateStats` on it adds the delta
to the entry of that key and creates no key. -/
theorem RankDictionaries_path_loses_key :
    startRanking.DictsDir = "/opt/dico" ∧
      startRanked.map (fun r => r.1.Rank.entries) = some [("a.dico", 0)] ∧
      startRanked.map Prod.snd = some ["/opt/dicoa.dico"] ∧
      filepathBase "/opt/dicoa.dico" = "dicoa.dico" ∧
      startRanked.bind (fun r =>
        (r.1.UpdateStats filepathBase true none "/opt/dicoa.dico" 3).map
          (fun u => u.1.Rank.entries)) = some [("a.dico", 0), ("dicoa.dico", 3)] ∧
      (∀ (dr : DictRanking) (k : String) (v delta : Nat) (writeOk : Bool)
          (statsFile : Option (List (String × Nat))),
        (dr.DictsDir = "" ∨ dr.DictsDir.data.getLast? = some '/') → k ≠ "" → '/' ∉ k.data →
        dr.Rank.get? k = some v →
        filepathBase (dr.DictsDir ++ k) = k ∧
          ∃ u, dr.UpdateStats filepathBase writeOk statsFile (dr.DictsDir ++ k) delta =
              some u ∧
            u.1.Rank.get? k = some ((v + delta) % 2 ^ 64) ∧
            u.1.Rank.entries.map Prod.fst = dr.Rank.entries.map Prod.fst) := by
  refine ⟨by decide, by decide, by decide, by decide, by decide, ?_⟩
  intro dr k v delta writeOk statsFile hroot hk hslash hget
  have hbase := filepathBase_append dr.DictsDir k hroot hk hslash
  refine ⟨hbase, _, UpdateStats_of_not_nil filepathBase writeOk dr statsFile _ delta
    (GoMap.isNil_of_get? dr.Rank k v hget), ?_, ?_⟩
  · show (dr.Rank.set _ _).get? _ = _
    rw [hbase, GoMap.get?_set_self, hget]
  · show (dr.Rank.set _ _).entries.map Prod.fst = _
    rw [hbase, hget]
    exact GoMap.set_keys_of_mem _ _ _ (GoMap.mem_keys_of_get? _ _ _ hget)

/-- C23 (counterexample): on Windows, when the working directory of the engine cannot be
entered, a round of the knowledge loop that starts with the count 2 and has two rules runs
the engine for no rule: `InvokeHashcat` returns its error before the engine is started.  The
count is measured before and after the round, and the loop ends. -/
theorem InvokeHashcatKnowledgeLoop_round_without_engine_run :
    measuredCampaign.cfg.Rules =
        ["/opt/hashcat/rules/a.rule", "/opt/hashcat/rules/b.rule"] ∧
      (InvokeHashcatKnowledgeLoop lockedEnv "/tmp/hashes.dict" 5 measuredCampaign).map
        (fun r => (countsMeasured r.1.events, commandLines r.1.events, r.2)) =
        some ([2, 2], ([] : List (List String)), [(2, 2)]) := by
  decide

/-- C23 (amended): a call of `InvokeHashcatKnowledgeLoop` whose first measurement is not
zero makes one round: after that measurement it runs the engine at most once for each rule
of `cfg.Rules`, in rule order, with the command line `-a 0 dict -r rule` after the fixed
part, whatever the outcome of the runs before, then measures the count again, and nothing
else happens in between; only then it compares the counts and recurses on the state
reached.  (Every round is such a call.)  The rules tried are all of `cfg.Rules` unless, on
Windows, the working directory cannot be read or changed: `InvokeHashcat` then returns its
error before the engine is run, and the loop goes on with the next rule all the same. -/
theorem InvokeHashcatKnowledgeLoop_round {W : Type} (env : Env W) (dict : String)
    (fuel : Nat) (s : Campaign W)
    (hcount : (exportStep env (setPhase ("Knowledge phase " ++ env.base dict) s)).2 ≠ 0) :
    ∃ (round : List Event) (tried : List String) (after : Campaign W) (newCount : Nat),
      after.events = s.events ++
        [Event.measured (exportStep env (setPhase ("Knowledge phase " ++ env.base dict) s)).2]
        ++ round ++ [Event.measured newCount] ∧
      InvokeHashcatKnowledgeLoop env dict (fuel + 1) s =
        (if newCount >
            (exportStep env (setPhase ("Knowledge phase " ++ env.base dict) s)).2 then
          (InvokeHashcatKnowledgeLoop env dict fuel after).map (fun r =>
            (r.1, ((exportStep env (setPhase ("Knowledge phase " ++ env.base dict) s)).2,
              newCount) :: r.2))
        else
          some (after,
            [((exportStep env (setPhase ("Knowledge phase " ++ env.base dict) s)).2,
              newCount)])) ∧
      tried.Sublist s.cfg.Rules ∧
      List.Forall₂ (fun rule e => ∃ session outcome, e = Event.invoked
        (["--session=" ++ ("Session_" ++ session), "-O", "--force", "-w", "4", "-m",
          s.cfg.HashType, s.cfg.HashFile, "-a", "0", dict] ++
          (if rule = "" then [] else ["-r", rule])) outcome) tried round ∧
      ((∀ files w, (env.sys files w).windows = true →
          (env.sys files w).getwdOk = true ∧ (env.sys files w).chdirOk = true) →
        tried = s.cfg.Rules) := by
  obtain ⟨hT, hF, hR⟩ := exportFoundPasswords_cfg_frame
    (env.sys (setPhase ("Knowledge phase " ++ env.base dict) s).files
      (setPhase ("Knowledge phase " ++ env.base dict) s).world)
    (setPhase ("Knowledge phase " ++ env.base dict) s).cfg
    (setPhase ("Knowledge phase " ++ env.base dict) s).files
  have hT' : (exportStep env (setPhase ("Knowledge phase " ++ env.base dict) s)).1.cfg.HashType
      = s.cfg.HashType := hT
  have hF' : (exportStep env (setPhase ("Knowledge phase " ++ env.base dict) s)).1.cfg.HashFile
      = s.cfg.HashFile := hF
  have hR' : (exportStep env (setPhase ("Knowledge phase " ++ env.base dict) s)).1.cfg.Rules
      = s.cfg.Rules := hR
  have hE : (exportStep env (setPhase ("Knowledge phase " ++ env.base dict) s)).1.events =
      s.events ++ [Event.measured
        (exportStep env (setPhase ("Knowledge phase " ++ env.base dict) s)).2] := rfl
  obtain ⟨round, tried, hev, _, hsub, hall, hfull⟩ := sweep_events env dict s.cfg.Rules
    (exportStep env (setPhase ("Knowledge phase " ++ env.base dict) s)).1
  rw [hT', hF'] at hall
  refine ⟨round, tried,
    (exportStep env (InvokeHashcatKnowledgeLoop.sweep env dict s.cfg.Rules
      (exportStep env (setPhase ("Knowledge phase " ++ env.base dict) s)).1)).1,
    (exportStep env (InvokeHashcatKnowledgeLoop.sweep env dict s.cfg.Rules
      (exportStep env (setPhase ("Knowledge phase " ++ env.base dict) s)).1)).2,
    ?_, ?_, hsub, hall, hfull⟩
  · show (InvokeHashcatKnowledgeLoop.sweep env dict s.cfg.Rules
      (exportStep env (setPhase ("Knowledge phase " ++ env.base dict) s)).1).events ++ _ = _
    rw [hev, hE]
    rfl
  · rw [InvokeHashcatKnowledgeLoop_succ, if_neg hcount, hR']

/-- C23 (amended) at a concrete input: over `DemoWorld` with one credential recovered, two
rules, and every run of the engine failing with exit status 255, the round tries both rules;
the loop makes two rounds, each with one run per rule in rule order, and measures the count
before and after each round only. -/
theorem InvokeHashcatKnowledgeLoop_round_witness :
    (∃ (round : List Event) (after : Campaign DemoWorld) (newCount : Nat),
      after.events = [Event.measured 1] ++ round ++ [Event.measured newCount] ∧
      List.Forall₂ (fun rule e => ∃ session outcome, e = Event.invoked
        (["--session=" ++ ("Session_" ++ session), "-O", "--force", "-w", "4", "-m",
          "0", "/tmp/hashes", "-a", "0", "/tmp/hashes.dict"] ++
          (if rule = "" then [] else ["-r", rule])) outcome)
        ["/opt/hashcat/rules/a.rule", "/opt/hashcat/rules/b.rule"] round) ∧
      (InvokeHashcatKnowledgeLoop (demoEnv (RunOutcome.exited 255)) "/tmp/hashes.dict" 5
        (twoRuleCampaign "0" 1)).map
        (fun r => (countsMeasured r.1.events, commandLines r.1.events, r.2)) =
        some ([1, 3, 3, 3],
          [["--session=Session_4242", "-O", "--force", "-w", "4", "-m", "0", "/tmp/hashes",
              "-a", "0", "/tmp/hashes.dict", "-r", "/opt/hashcat/rules/a.rule"],
            ["--session=Session_4242", "-O", "--force", "-w", "4", "-m", "0", "/tmp/hashes",
              "-a", "0", "/tmp/hashes.dict", "-r", "/opt/hashcat/rules/b.rule"],
            ["--session=Session_4242", "-O", "--force", "-w", "4", "-m", "0", "/tmp/hashes",
              "-a", "0", "/tmp/hashes.dict", "-r", "/opt/hashcat/rules/a.rule"],
            ["--session=Session_4242", "-O", "--force", "-w", "4", "-m", "0", "/tmp/hashes",
              "-a", "0", "/tmp/hashes.dict", "-r", "/opt/hashcat/rules/b.rule"]],
          [(1, 3), (3, 3)]) := by
  refine ⟨?_, by decide⟩
  obtain ⟨round, tried, after, newCount, hev, _, _, hall, hfull⟩ :=
    InvokeHashcatKnowledgeLoop_round (demoEnv (RunOutcome.exited 255)) "/tmp/hashes.dict" 4
      (twoRuleCampaign "0" 1) (by decide)
  have htried : tried = ["/opt/hashcat/rules/a.rule", "/opt/hashcat/rules/b.rule"] :=
    hfull (fun _ _ h => by cases h)
  have hfirst : (exportStep (demoEnv (RunOutcome.exited 255))
      (setPhase ("Knowledge phase " ++ (demoEnv (RunOutcome.exited 255)).base
        "/tmp/hashes.dict") (twoRuleCampaign "0" 1))).2 = 1 := by decide
  rw [hfirst] at hev
  rw [htried] at hall
  exact ⟨round, after, newCount, hev, hall⟩

/-- C25 (evaluation at the failing input): the first extraction returns 2 and the custom
dictionary holds the two entries bob and carol.  The second, at store size 20, purges the
custom dictionary, fails on the engine query and returns 0.  The third, still at size 20,
returns the count 2 that `cfg.HashcatFound` holds, while the custom dictionary holds no
entry. -/
theorem exportFoundPasswords_count_of_purged_dictionary :
    firstExtraction.ret = 2 ∧
      dictEntries firstExtraction.files.customDict = ["bob", "carol"] ∧
      failedExtraction.ret = 0 ∧
      failedExtraction.writes = [(FileId.customDict, "")] ∧
      dictEntries failedExtraction.files.customDict = [] ∧
      repeatedExtraction.ret = 2 ∧
      repeatedExtraction.cfg.HashcatFound = 2 ∧
      dictEntries repeatedExtraction.files.customDict = [] := by
  decide

/-- C26 (evaluation at the failing input): a list of one extra argument does not reach the
engine.  `InvokeHashcat` with the one argument `x` runs the fixed part of the command line
alone, and `InvokeHashcatBruteForce` with the one extra argument `x` is the call without
it; a list of two or more arguments follows the fixed part in order.  The first run of the
LM phase, called with the extra argument `-i`, has the command line of a run without it. -/
theorem InvokeHashcat_drops_single_extra_argument :
    (∀ (cfg : Config) (session x : String),
        InvokeHashcat.args cfg session [x] =
          ["--session=" ++ ("Session_" ++ session), "-O", "--force", "-w", "4", "-m",
            cfg.HashType, cfg.HashFile]) ∧
      (∀ (cfg : Config) (session : String) (extraArgs : List String), 1 < extraArgs.length →
        InvokeHashcat.args cfg session extraArgs =
          ["--session=" ++ ("Session_" ++ session), "-O", "--force", "-w", "4", "-m",
            cfg.HashType, cfg.HashFile] ++ extraArgs) ∧
      (∀ (W : Type) (env : Env W) (mask x : String) (s : Campaign W),
        InvokeHashcatBruteForce env mask [x] s = InvokeHashcat env ["-a", "3", mask] s) ∧
      (startHashcatAutomation (demoEnv (RunOutcome.exited 0)) "LM" 5
        (demoCampaign "1000" 1 [])).map (fun s => commandLines s.events) =
        some [["--session=Session_4242", "-O", "--force", "-w", "4", "-m", "3000",
            "/tmp/hashes", "-a", "3", "?a?a?a?a?a?a"],
          ["--session=Session_4242", "-O", "--force", "-w", "4", "-m", "3000",
            "/tmp/hashes", "-a", "3", "?a?a?a?a?a?a?a"]] ∧
      commandLines (InvokeHashcat (demoEnv (RunOutcome.exited 0)) ["--loopback"]
        (demoCampaign "1000" 1 [])).1.events =
        [["--session=Session_4242", "-O", "--force", "-w", "4", "-m", "1000",
          "/tmp/hashes"]] := by
  refine ⟨fun cfg session x => ?_, fun cfg session extraArgs h => ?_,
    fun W env mask x s => ?_, by decide, by decide⟩
  · simp [InvokeHashcat.args]
  · simp [InvokeHashcat.args, h]
  · simp [InvokeHashcatBruteForce]

/-- C27: for every table, candidate list `C`, order of the `range` loop and `sort.Slice`
meeting its contract, a call of `RankDictionaries(C)` on a table that is not the nil map
returns, and the sequence a call of `RankDictionaries(C)` returns holds, for every
key of the table after the insertion of the candidates, the ranking directory root
concatenated with the key, once, and nothing else: it has no duplicates and its length is
the size of the table.  So it holds the path of every key the table had before the call,
candidate or not, and of every candidate's base name.  On the table `a.dico: 10, b.dico: 5`
the candidate list `[/opt/dico/c.dico]` gives three paths, which are no reordering of
it. -/
theorem RankDictionaries_one_path_per_key (base : String → String)
    (sortSlice : (kv → kv → Bool) → List kv → List kv) (hs : SortSliceSpec sortSlice)
    (dr : DictRanking) (C : List String) (visit : List (String × Nat))
    (r : DictRanking × List String)
    (hr : dr.RankDictionaries base sortSlice C visit = some r)
    (hv : visit.Perm r.1.Rank.entries) :
    (∀ (dr' : DictRanking) (C' : List String) (visit' : List (String × Nat)),
        dr'.Rank.isNil = false →
        ∃ r', dr'.RankDictionaries base sortSlice C' visit' = some r') ∧
      r.2.Perm (r.1.Rank.entries.map (fun e => dr.DictsDir ++ e.1)) ∧
      r.2.Nodup ∧
      r.2.length = r.1.Rank.entries.length ∧
      (∀ k v, dr.Rank.get? k = some v → dr.DictsDir ++ k ∈ r.2) ∧
      (∀ p, p ∈ C → dr.DictsDir ++ base p ∈ r.2) ∧
      (scenarioRanking.RankDictionaries filepathBase insertionSort_func ["/opt/dico/c.dico"]
          [("c.dico", 0), ("b.dico", 5), ("a.dico", 10)]).map Prod.snd =
        some ["a.dico", "b.dico", "c.dico"] ∧
      ¬ List.Perm ["a.dico", "b.dico", "c.dico"] ["/opt/dico/c.dico"] := by
  obtain ⟨hperm, hnodup⟩ := RankDictionaries_paths base sortSlice hs dr C visit r hr hv
  obtain ⟨hd, _, _, _⟩ := RankDictionaries_eq_some base sortSlice dr C visit r hr
  have hmem : ∀ k v, r.1.Rank.get? k = some v → dr.DictsDir ++ k ∈ r.2 := by
    intro k v h
    exact hperm.mem_iff.2 (List.mem_map.2 ⟨(k, v), (GoMap.get?_eq_some_iff _ k v).1 h, rfl⟩)
  refine ⟨fun dr' C' visit' h => RankDictionaries_of_not_nil base sortSlice dr' C' visit' h,
    hperm, hnodup, ?_, ?_, ?_, by decide, by decide⟩
  · rw [hperm.length_eq, List.length_map]
  · intro k v h
    exact hmem k v (discover_get?_of_some base dr.Rank C _ hd k v h)
  · intro p hp
    obtain ⟨v, hv'⟩ := (discover_get?_base base dr.Rank C _ hd p hp).1
    exact hmem (base p) v hv'

/-- C27 at a concrete input: the table `a.dico: 10, b.dico: 5`, an empty ranking directory
root and the one candidate `/opt/dico/c.dico`: three paths, among them `b.dico`, which is
no candidate. -/
theorem RankDictionaries_one_path_per_key_witness :
    ∃ r, scenarioRanking.RankDictionaries filepathBase insertionSort_func
        ["/opt/dico/c.dico"] [("c.dico", 0), ("b.dico", 5), ("a.dico", 10)] = some r ∧
      r.2.length = 3 ∧ "" ++ "b.dico" ∈ r.2 := by
  have hr : scenarioRanking.RankDictionaries filepathBase insertionSort_func
      ["/opt/dico/c.dico"] [("c.dico", 0), ("b.dico", 5), ("a.dico", 10)] =
      some ((scenarioRanking.RankDictionaries filepathBase insertionSort_func
        ["/opt/dico/c.dico"] [("c.dico", 0), ("b.dico", 5), ("a.dico", 10)]).get
        (by decide)) := (Option.some_get _).symm
  have h := RankDictionaries_one_path_per_key filepathBase insertionSort_func
    insertionSort_func_spec scenarioRanking ["/opt/dico/c.dico"]
    [("c.dico", 0), ("b.dico", 5), ("a.dico", 10)] _ hr (by decide)
  refine ⟨_, hr, ?_, h.2.2.2.2.1 "b.dico" 5 (by decide)⟩
  rw [h.2.2.2.1]
  decide

end PownMyHash
